import Mathlib

/-!
# Verification of the AI Virtual Mouse gesture pipeline

Shallow embedding of `src/aivirtualmouseproject.py` (the gesture
recognition / action dispatch state machine inside `main`, plus the
helper `safe_move_mouse`), and proofs of the frozen claims about it.

Modelling conventions:
* Timestamps (`time.time()` values) are rationals `ℚ`; within one frame
  the several `time.time()` calls of the source are modelled as a single
  per-frame timestamp `Frame.t`.
* Landmark pixel coordinates are integers `ℤ` (OpenCV landmark pixel
  positions are ints in the source).
* The source compares the Euclidean distance `math.hypot`-style value
  `length` against nonnegative thresholds (`length < 35`,
  `length > 60`, `lengthTI < 30`).  Since `length = sqrt (distSq)` and
  both sides are nonnegative these comparisons are embedded exactly as
  comparisons of the squared distance against the squared threshold.
* The external backend calls (`autopy.mouse.move`, `pyautogui.click`,
  `doubleClick`, `click(button="right")`, `scroll`, `hotkey`) are
  recorded as `Event`s.  `frameStep` gives the normal (no backend
  failure) semantics of one iteration of the `while True` loop body for
  the state the claims are about; `frameStepE` additionally models a
  backend whose calls may raise, an exception aborting the frame
  (Python's exception propagation); only `autopy.mouse.move` is wrapped
  in `try/except` by the source (`safe_move_mouse`), so its failures
  never raise out of the frame.
* The HUD drawing, FPS counter (`pTime`), video recording and key
  handling of the loop body mutate none of the gesture state and are
  not modelled.
-/

/-! ## Configuration constants (source lines 30-40) -/

def wCam : ℚ := 480
def hCam : ℚ := 360
def frameR : ℚ := 100
def smoothening : ℚ := 3

def click_debounce_sec : ℚ := 0.12
def double_click_threshold : ℤ := 60
def swipe_threshold_px : ℤ := 120
def scroll_threshold_px : ℤ := 80
def cooldown_swipe_sec : ℚ := 0.7
def rest_toggle_hold_sec : ℚ := 0.35

/-! ## Data model -/

/-- Per-frame hand data delivered by the external detector:
`lmList[8][1:]` (index tip), `lmList[12][1:]` (middle tip),
`lmList[4][1:]` (thumb tip) and `detector.fingersUp()`. -/
structure HandData where
  indexTip : ℤ × ℤ
  middleTip : ℤ × ℤ
  thumbTip : ℤ × ℤ
  fingers : List ℕ
deriving DecidableEq

/-- One camera frame as seen by the gesture logic: its timestamp and the
detector result (`none` models an empty `lmList`). -/
structure Frame where
  t : ℚ
  hand : Option HandData
deriving DecidableEq

/-- The mutable globals of the source that carry gesture state across
frames (source lines 43-47): `plocX, plocY`, `last_click_time`,
`last_action_time`, `rest_since`, `paused`, `trail`. -/
structure State where
  plocX : ℚ
  plocY : ℚ
  lastClick : ℚ
  lastAction : ℚ
  restSince : Option ℚ
  paused : Bool
  trail : List (ℤ × ℤ × ℚ)
deriving DecidableEq

/-- Initial values of the globals (source lines 44-47). -/
def initState : State :=
  { plocX := 0, plocY := 0, lastClick := 0, lastAction := 0
    restSince := none, paused := false, trail := [] }

/-- Commands issued to the external OS input backend. -/
inductive Event where
  | move (x y : ℚ)
  | leftClick
  | doubleClick
  | rightClick
  | swipeLeft
  | swipeRight
  | scrollUp
  | scrollDown
  | pauseToggle
deriving DecidableEq

/-- Identifies the backend call that raised, for the exception model. -/
inductive Cmd where
  | clickCmd
  | doubleClickCmd
  | rightClickCmd
  | scrollCmd
  | hotkeyCmd
deriving DecidableEq

/-- Which external backend calls succeed.  `moveOk` is deliberately
never consulted: `safe_move_mouse` wraps `autopy.mouse.move` in
`try/except` (source lines 60-63), so a move failure is swallowed. -/
structure Backend where
  moveOk : Bool
  clickOk : Bool
  doubleClickOk : Bool
  rightClickOk : Bool
  scrollOk : Bool
  hotkeyOk : Bool

/-- The all-succeeding backend. -/
def okBackend : Backend :=
  { moveOk := true, clickOk := true, doubleClickOk := true
    rightClickOk := true, scrollOk := true, hotkeyOk := true }

/-! ## Basic operations -/

/-- Squared Euclidean distance between two pixel points; the source's
`length` is its square root. -/
def distSq (p q : ℤ × ℤ) : ℤ :=
  (p.1 - q.1) ^ 2 + (p.2 - q.2) ^ 2

/-- Python's binary `min` on rationals. -/
def pymin (a b : ℚ) : ℚ := if a ≤ b then a else b

/-- Python's binary `max` on rationals. -/
def pymax (a b : ℚ) : ℚ := if a ≤ b then b else a

/-- Python's `abs` on integers. -/
def pyabs (a : ℤ) : ℤ := if a < 0 then -a else a

/-- `np.interp(x, (lo, hi), (a, b))` for `lo < hi`: clamps outside the
input range, linear inside. -/
def interp (x lo hi a b : ℚ) : ℚ :=
  if x ≤ lo then a
  else if hi ≤ x then b
  else a + (b - a) * (x - lo) / (hi - lo)

/-- `safe_move_mouse` (source lines 57-59): the clamped coordinates the
source passes to `autopy.mouse.move`. -/
def safe_move_mouse (x y wScr hScr : ℚ) : ℚ × ℚ :=
  (pymax 0 (pymin (wScr - 1) x), pymax 0 (pymin (hScr - 1) y))

/-- `trail.append` on a `deque(maxlen=5)`: append right, evict leftmost
when full. -/
def dequePush5 (q : List (ℤ × ℤ × ℚ)) (a : ℤ × ℤ × ℚ) : List (ℤ × ℤ × ℚ) :=
  if q.length < 5 then q ++ [a] else q.tail ++ [a]

/-- `dx = trail[-1][0] - trail[0][0]` (source line 158); only consulted
when the trail has at least 2 entries. -/
def trailDx (q : List (ℤ × ℤ × ℚ)) : ℤ :=
  (q.getLastD (0, 0, 0)).1 - (q.headD (0, 0, 0)).1

/-- `dy = trail[-1][1] - trail[0][1]` (source line 159). -/
def trailDy (q : List (ℤ × ℤ × ℚ)) : ℤ :=
  (q.getLastD (0, 0, 0)).2.1 - (q.headD (0, 0, 0)).2.1

/-! ## Frame-step sections -/

/-- Pause-toggle-with-fist logic (source lines 110-117).  Returns the
new `rest_since`, the new `paused`, and whether a toggle fired. -/
def pauseUpdate (t : ℚ) (fingers : List ℕ) (restSince : Option ℚ)
    (paused : Bool) : Option ℚ × Bool × Bool :=
  if fingers = [0, 0, 0, 0, 0] then
    match restSince with
    | none => (some t, paused, false)
    | some r =>
      if rest_toggle_hold_sec ≤ t - r then (none, !paused, true)
      else (some r, paused, false)
  else (none, paused, false)

/-- Cursor-move section (source lines 124-131): one extended finger and
it is the index finger; interpolate into screen space, smooth, mirror X,
clamp via `safe_move_mouse`, update `plocX, plocY`. -/
def moveStep (wScr hScr : ℚ) (h : HandData) (s : State) :
    State × List Event :=
  if h.fingers.getD 1 0 = 1 ∧ h.fingers.sum = 1 then
    let x3 := interp (h.indexTip.1 : ℚ) frameR (wCam - frameR) 0 wScr
    let y3 := interp (h.indexTip.2 : ℚ) frameR (hCam - frameR) 0 hScr
    let clocX := s.plocX + (x3 - s.plocX) / smoothening
    let clocY := s.plocY + (y3 - s.plocY) / smoothening
    let c := safe_move_mouse (wScr - clocX) clocY wScr hScr
    ({ s with plocX := clocX, plocY := clocY }, [Event.move c.1 c.2])
  else (s, [])

/-- Left/double click section (source lines 134-144). -/
def clickStep (t : ℚ) (h : HandData) (s : State) : State × List Event :=
  if h.fingers.getD 1 0 = 1 ∧ h.fingers.getD 2 0 = 1 then
    if distSq h.indexTip h.middleTip < 35 ^ 2 ∧
        click_debounce_sec < t - s.lastClick then
      ({ s with lastClick := t }, [Event.leftClick])
    else if double_click_threshold ^ 2 < distSq h.indexTip h.middleTip ∧
        click_debounce_sec < t - s.lastClick then
      ({ s with lastClick := t }, [Event.doubleClick])
    else (s, [])
  else (s, [])

/-- Right click section (source lines 147-153). -/
def rightClickStep (t : ℚ) (h : HandData) (s : State) :
    State × List Event :=
  if h.fingers.getD 0 0 = 1 ∧ h.fingers.getD 1 0 = 1 then
    if distSq h.thumbTip h.indexTip < 30 ^ 2 ∧
        click_debounce_sec < t - s.lastClick then
      ({ s with lastClick := t }, [Event.rightClick])
    else (s, [])
  else (s, [])

/-- Swipe classification with open palm (source lines 163-171). -/
def swipePart (t : ℚ) (h : HandData) (dx dy : ℤ) (s1 : State) :
    State × List Event :=
  if h.fingers = [1, 1, 1, 1, 1] ∧
      cooldown_swipe_sec < t - s1.lastAction then
    if dx ≤ -swipe_threshold_px ∧ pyabs dy < swipe_threshold_px / 2 then
      ({ s1 with lastAction := t }, [Event.swipeLeft])
    else if swipe_threshold_px ≤ dx ∧ pyabs dy < swipe_threshold_px / 2 then
      ({ s1 with lastAction := t }, [Event.swipeRight])
    else (s1, [])
  else (s1, [])

/-- Scroll classification with palm or index (source lines 174-182);
reads `last_action_time` as possibly already updated by a swipe in the
same frame. -/
def scrollPart (t : ℚ) (h : HandData) (dy : ℤ) (s2 : State) :
    State × List Event :=
  if (h.fingers = [1, 1, 1, 1, 1] ∨
        (h.fingers.getD 1 0 = 1 ∧ h.fingers.sum ≤ 2)) ∧
      (0.2 : ℚ) < t - s2.lastAction then
    if dy ≤ -scroll_threshold_px then
      ({ s2 with lastAction := t }, [Event.scrollUp])
    else if scroll_threshold_px ≤ dy then
      ({ s2 with lastAction := t }, [Event.scrollDown])
    else (s2, [])
  else (s2, [])

/-- Dynamic gestures section (source lines 156-182): push the index tip
onto the trail; with at least two samples, classify swipes (open palm,
0.7s cooldown) then scrolls (palm or index, 0.2s cooldown), both gated
on the shared `last_action_time`. -/
def dynamicStep (t : ℚ) (h : HandData) (s : State) : State × List Event :=
  let trail1 := dequePush5 s.trail (h.indexTip.1, h.indexTip.2, t)
  let s1 : State := { s with trail := trail1 }
  if 2 ≤ trail1.length then
    let sw := swipePart t h (trailDx trail1) (trailDy trail1) s1
    let sc := scrollPart t h (trailDy trail1) sw.1
    (sc.1, sw.2 ++ sc.2)
  else (s1, [])

/-! ## One frame of the main loop -/

/-- The four active sections in source order (lines 124-182), run when
the (possibly just-toggled) `paused` flag is false. -/
def activeTail (wScr hScr t : ℚ) (h : HandData) (s1 : State) :
    State × List Event :=
  let m := moveStep wScr hScr h s1
  let c := clickStep t h m.1
  let rc := rightClickStep t h c.1
  let dyn := dynamicStep t h rc.1
  (dyn.1, m.2 ++ c.2 ++ rc.2 ++ dyn.2)

/-- One iteration of the `while True` body (source lines 91-194) on the
gesture state, normal (no backend failure) semantics: an empty `lmList`
skips everything; otherwise the pause controller runs first, and the
active sections run only when `paused` is false afterwards (source
line 122 reads `paused` after a possible toggle). -/
def frameStep (wScr hScr : ℚ) (s : State) (f : Frame) :
    State × List Event :=
  match f.hand with
  | none => (s, [])
  | some h =>
    let pr := pauseUpdate f.t h.fingers s.restSince s.paused
    let s1 : State := { s with restSince := pr.1, paused := pr.2.1 }
    let ev1 : List Event := if pr.2.2 then [Event.pauseToggle] else []
    if s1.paused then (s1, ev1)
    else
      let a := activeTail wScr hScr f.t h s1
      (a.1, ev1 ++ a.2)

/-- Processing a sequence of frames. -/
def run (wScr hScr : ℚ) (s : State) (fs : List Frame) :
    State × List Event :=
  match fs with
  | [] => (s, [])
  | f :: rest =>
    let r1 := frameStep wScr hScr s f
    let r2 := run wScr hScr r1.1 rest
    (r2.1, r1.2 ++ r2.2)

/-! ## Exception model (for the error-handling claim)

Python semantics: a raise from an unguarded backend call aborts the
frame (and the whole loop).  Only `safe_move_mouse` swallows. -/

/-- Click section with a fallible backend (`pyautogui.click` /
`pyautogui.doubleClick`, unguarded in the source). -/
def clickStepE (bk : Backend) (t : ℚ) (h : HandData) (s : State) :
    Except Cmd (State × List Event) :=
  if h.fingers.getD 1 0 = 1 ∧ h.fingers.getD 2 0 = 1 then
    if distSq h.indexTip h.middleTip < 35 ^ 2 ∧
        click_debounce_sec < t - s.lastClick then
      if bk.clickOk then .ok ({ s with lastClick := t }, [Event.leftClick])
      else .error Cmd.clickCmd
    else if double_click_threshold ^ 2 < distSq h.indexTip h.middleTip ∧
        click_debounce_sec < t - s.lastClick then
      if bk.doubleClickOk then
        .ok ({ s with lastClick := t }, [Event.doubleClick])
      else .error Cmd.doubleClickCmd
    else .ok (s, [])
  else .ok (s, [])

/-- Right click section with a fallible backend
(`pyautogui.click(button="right")`, unguarded in the source). -/
def rightClickStepE (bk : Backend) (t : ℚ) (h : HandData) (s : State) :
    Except Cmd (State × List Event) :=
  if h.fingers.getD 0 0 = 1 ∧ h.fingers.getD 1 0 = 1 then
    if distSq h.thumbTip h.indexTip < 30 ^ 2 ∧
        click_debounce_sec < t - s.lastClick then
      if bk.rightClickOk then
        .ok ({ s with lastClick := t }, [Event.rightClick])
      else .error Cmd.rightClickCmd
    else .ok (s, [])
  else .ok (s, [])

/-- Swipe classification with a fallible backend (`pyautogui.hotkey`,
unguarded in the source). -/
def swipePartE (bk : Backend) (t : ℚ) (h : HandData) (dx dy : ℤ)
    (s1 : State) : Except Cmd (State × List Event) :=
  if h.fingers = [1, 1, 1, 1, 1] ∧
      cooldown_swipe_sec < t - s1.lastAction then
    if dx ≤ -swipe_threshold_px ∧ pyabs dy < swipe_threshold_px / 2 then
      if bk.hotkeyOk then
        .ok ({ s1 with lastAction := t }, [Event.swipeLeft])
      else .error Cmd.hotkeyCmd
    else if swipe_threshold_px ≤ dx ∧ pyabs dy < swipe_threshold_px / 2 then
      if bk.hotkeyOk then
        .ok ({ s1 with lastAction := t }, [Event.swipeRight])
      else .error Cmd.hotkeyCmd
    else .ok (s1, [])
  else .ok (s1, [])

/-- Scroll classification with a fallible backend (`pyautogui.scroll`,
unguarded in the source). -/
def scrollPartE (bk : Backend) (t : ℚ) (h : HandData) (dy : ℤ)
    (s2 : State) : Except Cmd (State × List Event) :=
  if (h.fingers = [1, 1, 1, 1, 1] ∨
        (h.fingers.getD 1 0 = 1 ∧ h.fingers.sum ≤ 2)) ∧
      (0.2 : ℚ) < t - s2.lastAction then
    if dy ≤ -scroll_threshold_px then
      if bk.scrollOk then
        .ok ({ s2 with lastAction := t }, [Event.scrollUp])
      else .error Cmd.scrollCmd
    else if scroll_threshold_px ≤ dy then
      if bk.scrollOk then
        .ok ({ s2 with lastAction := t }, [Event.scrollDown])
      else .error Cmd.scrollCmd
    else .ok (s2, [])
  else .ok (s2, [])

/-- Dynamic gestures section with a fallible backend. -/
def dynamicStepE (bk : Backend) (t : ℚ) (h : HandData) (s : State) :
    Except Cmd (State × List Event) :=
  let trail1 := dequePush5 s.trail (h.indexTip.1, h.indexTip.2, t)
  let s1 : State := { s with trail := trail1 }
  if 2 ≤ trail1.length then
    match swipePartE bk t h (trailDx trail1) (trailDy trail1) s1 with
    | .error c => .error c
    | .ok sw =>
      match scrollPartE bk t h (trailDy trail1) sw.1 with
      | .error c => .error c
      | .ok sc => .ok (sc.1, sw.2 ++ sc.2)
  else .ok (s1, [])

/-- One frame with a fallible backend: an `Except.error` is a backend
exception escaping the frame (and aborting the loop).  The move command
is issued through `safe_move_mouse`, whose `try/except` swallows any
failure, so `bk.moveOk` is never consulted. -/
def frameStepE (bk : Backend) (wScr hScr : ℚ) (s : State) (f : Frame) :
    Except Cmd (State × List Event) :=
  match f.hand with
  | none => .ok (s, [])
  | some h =>
    let pr := pauseUpdate f.t h.fingers s.restSince s.paused
    let s1 : State := { s with restSince := pr.1, paused := pr.2.1 }
    let ev1 : List Event := if pr.2.2 then [Event.pauseToggle] else []
    if s1.paused then .ok (s1, ev1)
    else
      let m := moveStep wScr hScr h s1
      match clickStepE bk f.t h m.1 with
      | .error c => .error c
      | .ok cres =>
        match rightClickStepE bk f.t h cres.1 with
        | .error c => .error c
        | .ok rcres =>
          match dynamicStepE bk f.t h rcres.1 with
          | .error c => .error c
          | .ok dynres =>
            .ok (dynres.1, ev1 ++ m.2 ++ cres.2 ++ rcres.2 ++ dynres.2)

/-! ## Derived counting / pause-run helpers -/

/-- Number of pause toggles in an event list. -/
def countToggles : List Event → ℕ
  | [] => 0
  | e :: r => (if e = Event.pauseToggle then 1 else 0) + countToggles r

/-- The pause controller alone, run over the timestamps of a sequence of
fist frames (finger vector `[0,0,0,0,0]`), counting toggles. -/
def pauseRunFist : List ℚ → Option ℚ × Bool → (Option ℚ × Bool) × ℕ
  | [], st => (st, 0)
  | t :: ts, st =>
    let pr := pauseUpdate t [0, 0, 0, 0, 0] st.1 st.2
    let rest := pauseRunFist ts (pr.1, pr.2.1)
    (rest.1, (if pr.2.2 then 1 else 0) + rest.2)

/-- Projection used to state that a backend exception escaped a frame:
the raising command, if the frame aborted. -/
def escapedCmd (r : Except Cmd (State × List Event)) : Option Cmd :=
  match r with
  | .error c => some c
  | .ok _ => none

/-- The spec's debounce contract (§4.3), modelled from the spec's words:
`allow(category, now, minInterval)` returns true iff
`now − lastTrigger[category] ≥ minInterval`.  Compare with the source's
inline checks `(now - last) > interval`. -/
def allow_spec (lastTrigger now minInterval : ℚ) : Bool :=
  minInterval ≤ now - lastTrigger

/-! ## Concrete fixtures used in counterexamples and witnesses -/

/-- A fist: all five fingers retracted. -/
def fistHand : HandData :=
  { indexTip := (10, 10), middleTip := (0, 0), thumbTip := (0, 0)
    fingers := [0, 0, 0, 0, 0] }

/-- Index and middle extended, tips 11.18px apart
(`(200,200)` and `(210,205)`, squared distance 125). -/
def clickHand : HandData :=
  { indexTip := (200, 200), middleTip := (210, 205), thumbTip := (0, 0)
    fingers := [0, 1, 1, 0, 0] }

/-- Only the index finger extended, tip at `(50, 50)`. -/
def indexHand : HandData :=
  { indexTip := (50, 50), middleTip := (0, 0), thumbTip := (0, 0)
    fingers := [0, 1, 0, 0, 0] }

/-- Open palm (all five extended), index tip at `(150, 110)`. -/
def palmHand : HandData :=
  { indexTip := (150, 110), middleTip := (0, 0), thumbTip := (0, 0)
    fingers := [1, 1, 1, 1, 1] }

/-! ## Characterization lemmas for the sections -/

lemma moveStep_cases (w hs : ℚ) (h : HandData) (s : State) :
    moveStep w hs h s = (s, []) ∨
    ∃ px py, moveStep w hs h s =
      ({ s with plocX := px, plocY := py },
        [Event.move (safe_move_mouse (w - px) py w hs).1
          (safe_move_mouse (w - px) py w hs).2]) := by
  unfold moveStep
  split_ifs
  · exact Or.inr ⟨_, _, rfl⟩
  · exact Or.inl rfl

lemma moveStep_spec (w hs : ℚ) (h : HandData) (s : State) :
    (moveStep w hs h s).1.lastClick = s.lastClick ∧
    (moveStep w hs h s).1.lastAction = s.lastAction ∧
    (moveStep w hs h s).1.restSince = s.restSince ∧
    (moveStep w hs h s).1.paused = s.paused ∧
    (moveStep w hs h s).1.trail = s.trail ∧
    ((moveStep w hs h s).2 = [] ∨
      ∃ a b, (moveStep w hs h s).2 = [Event.move a b]) := by
  unfold moveStep
  split_ifs <;> simp

lemma clickStep_cases (t : ℚ) (h : HandData) (s : State) :
    clickStep t h s = (s, []) ∨
    (click_debounce_sec < t - s.lastClick ∧
      (clickStep t h s = ({ s with lastClick := t }, [Event.leftClick]) ∨
        clickStep t h s = ({ s with lastClick := t }, [Event.doubleClick]))) := by
  unfold clickStep
  split_ifs with h1 h2 h3
  · exact Or.inr ⟨h2.2, Or.inl rfl⟩
  · exact Or.inr ⟨h3.2, Or.inr rfl⟩
  · exact Or.inl rfl
  · exact Or.inl rfl

lemma rightClickStep_cases (t : ℚ) (h : HandData) (s : State) :
    rightClickStep t h s = (s, []) ∨
    (click_debounce_sec < t - s.lastClick ∧
      rightClickStep t h s = ({ s with lastClick := t }, [Event.rightClick])) := by
  unfold rightClickStep
  split_ifs with h1 h2
  · exact Or.inr ⟨h2.2, rfl⟩
  · exact Or.inl rfl
  · exact Or.inl rfl

lemma swipePart_cases (t : ℚ) (h : HandData) (dx dy : ℤ) (s1 : State) :
    swipePart t h dx dy s1 = (s1, []) ∨
    (h.fingers = [1, 1, 1, 1, 1] ∧ cooldown_swipe_sec < t - s1.lastAction ∧
      (swipePart t h dx dy s1 = ({ s1 with lastAction := t }, [Event.swipeLeft]) ∨
        swipePart t h dx dy s1 = ({ s1 with lastAction := t }, [Event.swipeRight]))) := by
  unfold swipePart
  split_ifs with h1 h2 h3
  · exact Or.inr ⟨h1.1, h1.2, Or.inl rfl⟩
  · exact Or.inr ⟨h1.1, h1.2, Or.inr rfl⟩
  · exact Or.inl rfl
  · exact Or.inl rfl

lemma scrollPart_cases (t : ℚ) (h : HandData) (dy : ℤ) (s2 : State) :
    scrollPart t h dy s2 = (s2, []) ∨
    ((0.2 : ℚ) < t - s2.lastAction ∧
      (scrollPart t h dy s2 = ({ s2 with lastAction := t }, [Event.scrollUp]) ∨
        scrollPart t h dy s2 = ({ s2 with lastAction := t }, [Event.scrollDown]))) := by
  unfold scrollPart
  split_ifs with h1 h2 h3
  · exact Or.inr ⟨h1.2, Or.inl rfl⟩
  · exact Or.inr ⟨h1.2, Or.inr rfl⟩
  · exact Or.inl rfl
  · exact Or.inl rfl

lemma dynamicStep_spec (t : ℚ) (h : HandData) (s : State) :
    (dynamicStep t h s).1.plocX = s.plocX ∧
    (dynamicStep t h s).1.plocY = s.plocY ∧
    (dynamicStep t h s).1.lastClick = s.lastClick ∧
    (dynamicStep t h s).1.restSince = s.restSince ∧
    (dynamicStep t h s).1.paused = s.paused ∧
    (dynamicStep t h s).1.trail =
      dequePush5 s.trail (h.indexTip.1, h.indexTip.2, t) ∧
    (((dynamicStep t h s).1.lastAction = s.lastAction ∧
        (dynamicStep t h s).2 = []) ∨
      ((dynamicStep t h s).1.lastAction = t ∧
        ((cooldown_swipe_sec < t - s.lastAction ∧
            ((dynamicStep t h s).2 = [Event.swipeLeft] ∨
              (dynamicStep t h s).2 = [Event.swipeRight])) ∨
          ((0.2 : ℚ) < t - s.lastAction ∧
            ((dynamicStep t h s).2 = [Event.scrollUp] ∨
              (dynamicStep t h s).2 = [Event.scrollDown]))))) := by
  unfold dynamicStep
  set trail1 := dequePush5 s.trail (h.indexTip.1, h.indexTip.2, t) with htr
  by_cases hlen : 2 ≤ trail1.length
  · simp only [hlen, if_true]
    rcases swipePart_cases t h (trailDx trail1) (trailDy trail1)
        { s with trail := trail1 } with hsw | ⟨hf, hcd, hswe⟩
    · rw [hsw]
      rcases scrollPart_cases t h (trailDy trail1)
          { s with trail := trail1 } with hsc | ⟨hscd, hsce⟩
      · rw [hsc]; simp
      · rcases hsce with hsce | hsce <;> rw [hsce] <;> simp_all
    · rcases hswe with hswe | hswe <;> rw [hswe] <;>
      · rcases scrollPart_cases t h (trailDy trail1)
            ({ s with trail := trail1, lastAction := t } : State) with hsc | ⟨hscd, hsce⟩
        · rw [hsc]; simp_all
        · exfalso
          norm_num at hscd
  · simp only [hlen, if_false]
    simp

lemma clickStep_spec (t : ℚ) (h : HandData) (s : State) :
    (clickStep t h s).1.plocX = s.plocX ∧
    (clickStep t h s).1.plocY = s.plocY ∧
    (clickStep t h s).1.lastAction = s.lastAction ∧
    (clickStep t h s).1.restSince = s.restSince ∧
    (clickStep t h s).1.paused = s.paused ∧
    (clickStep t h s).1.trail = s.trail := by
  unfold clickStep
  split_ifs <;> simp

lemma rightClickStep_spec (t : ℚ) (h : HandData) (s : State) :
    (rightClickStep t h s).1.plocX = s.plocX ∧
    (rightClickStep t h s).1.plocY = s.plocY ∧
    (rightClickStep t h s).1.lastAction = s.lastAction ∧
    (rightClickStep t h s).1.restSince = s.restSince ∧
    (rightClickStep t h s).1.paused = s.paused ∧
    (rightClickStep t h s).1.trail = s.trail := by
  unfold rightClickStep
  split_ifs <;> simp

/-! ## Frame-step decomposition -/

lemma frameStep_none (w hs : ℚ) (s : State) (f : Frame)
    (hh : f.hand = none) : frameStep w hs s f = (s, []) := by
  unfold frameStep
  rw [hh]


lemma frameStep_mk (w hs : ℚ) (s : State) (t : ℚ) (h : HandData) :
    frameStep w hs s ⟨t, some h⟩ =
      (let pr := pauseUpdate t h.fingers s.restSince s.paused
       let s1 : State := { s with restSince := pr.1, paused := pr.2.1 }
       let ev1 : List Event := if pr.2.2 then [Event.pauseToggle] else []
       if s1.paused then (s1, ev1)
       else
         let a := activeTail w hs t h s1
         (a.1, ev1 ++ a.2)) := rfl

lemma frameStep_eta (w hs : ℚ) (s : State) (f : Frame) (h : HandData)
    (hh : f.hand = some h) : frameStep w hs s f = frameStep w hs s ⟨f.t, some h⟩ := by
  obtain ⟨t, hand⟩ := f
  simp only [Frame.hand] at hh
  rw [hh]

lemma countToggles_append (a b : List Event) :
    countToggles (a ++ b) = countToggles a + countToggles b := by
  induction a with
  | nil => simp [countToggles]
  | cons e r ih => simp [countToggles, ih]; ring

lemma activeTail_spec (w hs t : ℚ) (h : HandData) (s1 : State) :
    (activeTail w hs t h s1).1.restSince = s1.restSince ∧
    (activeTail w hs t h s1).1.paused = s1.paused ∧
    countToggles (activeTail w hs t h s1).2 = 0 := by
  obtain ⟨m1, m2, m3, m4, m5, m6⟩ := moveStep_spec w hs h s1
  obtain ⟨c1, c2, c3, c4, c5, c6⟩ := clickStep_spec t h (moveStep w hs h s1).1
  obtain ⟨r1, r2, r3, r4, r5, r6⟩ :=
    rightClickStep_spec t h (clickStep t h (moveStep w hs h s1).1).1
  obtain ⟨d1, d2, d3, d4, d5, d6, d7⟩ :=
    dynamicStep_spec t h
      (rightClickStep t h (clickStep t h (moveStep w hs h s1).1).1).1
  have hmc : countToggles (moveStep w hs h s1).2 = 0 := by
    rcases m6 with hm | ⟨a, b, hm⟩ <;> simp [hm, countToggles]
  have hcc : countToggles (clickStep t h (moveStep w hs h s1).1).2 = 0 := by
    rcases clickStep_cases t h (moveStep w hs h s1).1 with hc | ⟨_, hc | hc⟩ <;>
      simp [hc, countToggles]
  have hrc : countToggles
      (rightClickStep t h (clickStep t h (moveStep w hs h s1).1).1).2 = 0 := by
    rcases rightClickStep_cases t h
        (clickStep t h (moveStep w hs h s1).1).1 with hr | ⟨_, hr⟩ <;>
      simp [hr, countToggles]
  have hdc : countToggles (dynamicStep t h
      (rightClickStep t h (clickStep t h (moveStep w hs h s1).1).1).1).2 = 0 := by
    rcases d7 with ⟨_, hd⟩ | ⟨_, ⟨_, hd | hd⟩ | ⟨_, hd | hd⟩⟩ <;>
      simp [hd, countToggles]
  refine ⟨?_, ?_, ?_⟩
  · show (dynamicStep t h
      (rightClickStep t h (clickStep t h (moveStep w hs h s1).1).1).1).1.restSince = s1.restSince
    rw [d4, r4, c4, m3]
  · show (dynamicStep t h
      (rightClickStep t h (clickStep t h (moveStep w hs h s1).1).1).1).1.paused = s1.paused
    rw [d5, r5, c5, m4]
  · show countToggles ((moveStep w hs h s1).2 ++
      (clickStep t h (moveStep w hs h s1).1).2 ++
      (rightClickStep t h (clickStep t h (moveStep w hs h s1).1).1).2 ++
      (dynamicStep t h
        (rightClickStep t h (clickStep t h (moveStep w hs h s1).1).1).1).2) = 0
    simp [countToggles_append, hmc, hcc, hrc, hdc]

/-- The pause fields and the toggle count of a frame depend only on the
pause controller: the active sections never touch `rest_since`/`paused`
and never emit a toggle. -/
lemma frameStep_pause_proj (w hs : ℚ) (s : State) (t : ℚ) (h : HandData) :
    (frameStep w hs s ⟨t, some h⟩).1.restSince =
      (pauseUpdate t h.fingers s.restSince s.paused).1 ∧
    (frameStep w hs s ⟨t, some h⟩).1.paused =
      (pauseUpdate t h.fingers s.restSince s.paused).2.1 ∧
    countToggles (frameStep w hs s ⟨t, some h⟩).2 =
      (if (pauseUpdate t h.fingers s.restSince s.paused).2.2 then 1
       else 0) := by
  rw [frameStep_mk]
  set pr := pauseUpdate t h.fingers s.restSince s.paused with hpr
  have hev1 : countToggles (if pr.2.2 then [Event.pauseToggle] else []) =
      (if pr.2.2 then 1 else 0) := by
    by_cases hp : pr.2.2 <;> simp [hp, countToggles]
  obtain ⟨a1, a2, a3⟩ := activeTail_spec w hs t h
    { s with restSince := pr.1, paused := pr.2.1 }
  by_cases hp : pr.2.1
  · simp [hp, hev1]
  · have hpf : pr.2.1 = false := by simpa using hp
    rw [hpf] at a1 a2 a3
    simp only [hpf, Bool.false_eq_true, if_false]
    refine ⟨?_, ?_, ?_⟩
    · rw [a1]
    · rw [a2]
    · rw [countToggles_append, a3, hev1]
      omega

/-! ## Pause-controller runs over fist frames -/

lemma run_fist_proj (w hs : ℚ) (fs : List Frame) :
    ∀ s : State,
    (∀ f ∈ fs, ∃ hd : HandData, f.hand = some hd ∧
        hd.fingers = [0, 0, 0, 0, 0]) →
    (run w hs s fs).1.restSince =
      (pauseRunFist (fs.map Frame.t) (s.restSince, s.paused)).1.1 ∧
    (run w hs s fs).1.paused =
      (pauseRunFist (fs.map Frame.t) (s.restSince, s.paused)).1.2 ∧
    countToggles (run w hs s fs).2 =
      (pauseRunFist (fs.map Frame.t) (s.restSince, s.paused)).2 := by
  induction fs with
  | nil => intro s _; simp [run, pauseRunFist, countToggles]
  | cons f fs ih =>
    intro s hall
    obtain ⟨hd, hh, hfist⟩ := hall f (List.mem_cons_self f fs)
    have hrest : ∀ g ∈ fs, ∃ hd : HandData, g.hand = some hd ∧
        hd.fingers = [0, 0, 0, 0, 0] :=
      fun g hg => hall g (List.mem_cons_of_mem f hg)
    have hstep := frameStep_eta w hs s f hd hh
    obtain ⟨p1, p2, p3⟩ := frameStep_pause_proj w hs s f.t hd
    rw [← hstep] at p1 p2 p3
    rw [hfist] at p1 p2 p3
    obtain ⟨i1, i2, i3⟩ := ih (frameStep w hs s f).1 hrest
    refine ⟨?_, ?_, ?_⟩
    · show (run w hs (frameStep w hs s f).1 fs).1.restSince = _
      rw [i1, p1, p2]
      simp [pauseRunFist]
    · show (run w hs (frameStep w hs s f).1 fs).1.paused = _
      rw [i2, p1, p2]
      simp [pauseRunFist]
    · show countToggles ((frameStep w hs s f).2 ++
        (run w hs (frameStep w hs s f).1 fs).2) = _
      rw [countToggles_append, i3, p1, p2, p3]
      simp [pauseRunFist]

lemma pauseRunFist_append (ts us : List ℚ) (st : Option ℚ × Bool) :
    pauseRunFist (ts ++ us) st =
      ((pauseRunFist us (pauseRunFist ts st).1).1,
        (pauseRunFist ts st).2 + (pauseRunFist us (pauseRunFist ts st).1).2) := by
  induction ts generalizing st with
  | nil => simp [pauseRunFist]
  | cons t ts ih =>
    simp only [List.cons_append, pauseRunFist, List.append_eq, ih, add_assoc]

/-- While the hold timer is armed at `t0` and every further frame comes
less than the threshold after `t0`, nothing changes and no toggle
fires. -/
lemma pauseRunFist_pre (ts : List ℚ) (t0 : ℚ) (p : Bool)
    (hall : ∀ u ∈ ts, u - t0 < rest_toggle_hold_sec) :
    pauseRunFist ts (some t0, p) = ((some t0, p), 0) := by
  induction ts with
  | nil => rfl
  | cons u ts ih =>
    have hu : ¬ rest_toggle_hold_sec ≤ u - t0 :=
      not_le.mpr (hall u (List.mem_cons_self u ts))
    have ih2 := ih (fun v hv => hall v (List.mem_cons_of_mem u hv))
    simp [pauseRunFist, pauseUpdate, hu, ih2]

/-- Starting unarmed (or armed at some time `≥ c`), a stretch of fist
frames whose timestamps all lie in `[c, c + threshold)` fires no
toggle. -/
lemma pauseRunFist_low (ts : List ℚ) (c : ℚ) (p : Bool) :
    ∀ r : Option ℚ,
    (∀ u ∈ ts, c ≤ u ∧ u - c < rest_toggle_hold_sec) →
    (∀ v, r = some v → c ≤ v) →
    (pauseRunFist ts (r, p)).1.2 = p ∧ (pauseRunFist ts (r, p)).2 = 0 := by
  induction ts with
  | nil => intro r _ _; exact ⟨rfl, rfl⟩
  | cons u ts ih =>
    intro r hall hr
    obtain ⟨hcu, hlt⟩ := hall u (List.mem_cons_self u ts)
    have htail : ∀ v ∈ ts, c ≤ v ∧ v - c < rest_toggle_hold_sec :=
      fun v hv => hall v (List.mem_cons_of_mem u hv)
    cases r with
    | none =>
      have ih2 := ih (some u) htail (fun v hv => by cases hv; exact hcu)
      simpa [pauseRunFist, pauseUpdate] using ih2
    | some v =>
      have hcv := hr v rfl
      have hnv : ¬ rest_toggle_hold_sec ≤ u - v := by
        have : u - v ≤ u - c := by linarith
        have : u - v < rest_toggle_hold_sec := by linarith
        exact not_le.mpr this
      have ih2 := ih (some v) htail (fun x hx => by cases hx; exact hcv)
      simpa [pauseRunFist, pauseUpdate, hnv] using ih2

lemma pauseRunFist_cons_none (t : ℚ) (ts : List ℚ) (p : Bool) :
    pauseRunFist (t :: ts) (none, p) = pauseRunFist ts (some t, p) := by
  simp [pauseRunFist, pauseUpdate]

lemma pauseRunFist_cons_toggle (t r : ℚ) (ts : List ℚ) (p : Bool)
    (hge : rest_toggle_hold_sec ≤ t - r) :
    pauseRunFist (t :: ts) (some r, p) =
      ((pauseRunFist ts (none, !p)).1,
        1 + (pauseRunFist ts (none, !p)).2) := by
  simp [pauseRunFist, pauseUpdate, hge]

/-- C1: the claim says a fist held continuously past the 0.35s threshold
toggles exactly once, however long it is held.  False: after a toggle
the very next fist frame re-arms `rest_since`, so a fist held from t=0
to t=0.71s (frames at 0, 0.35, 0.36, 0.71) toggles twice, without any
release in between. -/
theorem C1_counterexample :
    countToggles (run 100 100 initState
      [⟨0, some fistHand⟩, ⟨0.35, some fistHand⟩,
       ⟨0.36, some fistHand⟩, ⟨0.71, some fistHand⟩]).2 = 2 := by
  norm_num [run, frameStep, activeTail, pauseUpdate, moveStep, clickStep,
    rightClickStep, dynamicStep, swipePart, scrollPart, dequePush5, trailDx,
    trailDy, distSq, initState, pymin, pymax, pyabs, interp, safe_move_mouse,
    countToggles, click_debounce_sec, double_click_threshold,
    swipe_threshold_px, scroll_threshold_px, cooldown_swipe_sec,
    rest_toggle_hold_sec, wCam, hCam, frameR, smoothening, fistHand]

/-- C1 (amended): a continuous fist hold that reaches the 0.35s
threshold toggles exactly once, provided the whole hold lasts less than
twice the threshold; the toggle re-arms on the next fist frame rather
than waiting for a release, so a longer hold re-fires.  Formally: with
`rest_since` initially clear, for fist frames `f0`, then `pre` (all
within the threshold of `f0`), then `ftr` (at least the threshold but
less than twice it after `f0`), then `post` (all at/after `ftr` and
within twice the threshold of `f0`), exactly one toggle occurs and
`paused` ends flipped. -/
theorem C1_amended (w hs : ℚ) (s : State) (f0 ftr : Frame)
    (pre post : List Frame)
    (hrest : s.restSince = none)
    (hfist : ∀ f ∈ f0 :: (pre ++ ftr :: post), ∃ hd : HandData,
        f.hand = some hd ∧ hd.fingers = [0, 0, 0, 0, 0])
    (hpre : ∀ f ∈ pre, f.t - f0.t < rest_toggle_hold_sec)
    (htr1 : rest_toggle_hold_sec ≤ ftr.t - f0.t)
    (htr2 : ftr.t - f0.t < 2 * rest_toggle_hold_sec)
    (hpost : ∀ f ∈ post, ftr.t ≤ f.t ∧
        f.t - f0.t < 2 * rest_toggle_hold_sec) :
    countToggles (run w hs s (f0 :: (pre ++ ftr :: post))).2 = 1 ∧
    (run w hs s (f0 :: (pre ++ ftr :: post))).1.paused = !s.paused := by
  obtain ⟨q1, q2, q3⟩ := run_fist_proj w hs (f0 :: (pre ++ ftr :: post)) s hfist
  rw [q2, q3, hrest]
  simp only [List.map_cons, List.map_append]
  rw [pauseRunFist_cons_none, pauseRunFist_append]
  have hpre2 : pauseRunFist (pre.map Frame.t) (some f0.t, s.paused) =
      ((some f0.t, s.paused), 0) := by
    refine pauseRunFist_pre _ _ _ ?_
    intro u hu
    obtain ⟨g, hg, rfl⟩ := List.mem_map.mp hu
    exact hpre g hg
  rw [hpre2]
  rw [pauseRunFist_cons_toggle _ _ _ _ htr1]
  have hlow := pauseRunFist_low (post.map Frame.t) ftr.t (!s.paused) none
    (by
      intro u hu
      obtain ⟨g, hg, rfl⟩ := List.mem_map.mp hu
      obtain ⟨hg1, hg2⟩ := hpost g hg
      exact ⟨hg1, by linarith⟩)
    (fun v hv => nomatch hv)
  obtain ⟨hl1, hl2⟩ := hlow
  exact ⟨by simp [hl2], by simp [hl1]⟩

/-- C1 (witness for the amended theorem): fist frames at t=0, 0.35 and
0.5 starting from the initial state toggle exactly once, ending
PAUSED. -/
theorem C1_witness :
    countToggles (run 100 100 initState
      [⟨0, some fistHand⟩, ⟨0.35, some fistHand⟩,
       ⟨0.5, some fistHand⟩]).2 = 1 ∧
    (run 100 100 initState
      [⟨0, some fistHand⟩, ⟨0.35, some fistHand⟩,
       ⟨0.5, some fistHand⟩]).1.paused = !initState.paused := by
  have h := C1_amended 100 100 initState ⟨0, some fistHand⟩
    ⟨0.35, some fistHand⟩ [] [⟨0.5, some fistHand⟩] rfl
    (by
      intro f hf
      simp only [List.nil_append, List.mem_cons, List.not_mem_nil, or_false] at hf
      rcases hf with rfl | rfl | rfl <;> exact ⟨fistHand, rfl, rfl⟩)
    (by intro f hf; exact absurd hf (List.not_mem_nil f))
    (by norm_num [rest_toggle_hold_sec])
    (by norm_num [rest_toggle_hold_sec])
    (by
      intro f hf
      simp only [List.mem_singleton] at hf
      subst hf
      norm_num [rest_toggle_hold_sec])
  simpa using h

/-- With a fist, none of the active sections fires; only the trail is
appended to. -/
lemma activeTail_fist (w hs t : ℚ) (hd : HandData) (s1 : State)
    (hf : hd.fingers = [0, 0, 0, 0, 0]) :
    activeTail w hs t hd s1 =
      ({ s1 with trail :=
          dequePush5 s1.trail (hd.indexTip.1, hd.indexTip.2, t) }, []) := by
  unfold activeTail moveStep clickStep rightClickStep dynamicStep
    swipePart scrollPart
  simp only [hf]
  norm_num

/-- C8: the claim says every frame with no hand detected also clears
`restSince`.  False: an empty `lmList` skips the whole gesture block
(source line 103), so `rest_since` survives a hand-detection dropout,
and fist-hold credit carries across the interruption: fist at t=0, no
hand at t=0.2, fist at t=0.4 still fires a toggle. -/
theorem C8_counterexample :
    (frameStep 100 100 { initState with restSince := some 0 }
        ⟨0.2, none⟩).1.restSince = some 0 ∧
    countToggles (run 100 100 initState
      [⟨0, some fistHand⟩, ⟨0.2, none⟩, ⟨0.4, some fistHand⟩]).2 = 1 := by
  constructor
  · rw [frameStep_none _ _ _ _ rfl]
  · norm_num [run, frameStep, activeTail, pauseUpdate, moveStep, clickStep,
      rightClickStep, dynamicStep, swipePart, scrollPart, dequePush5, trailDx,
      trailDy, distSq, initState, pymin, pymax, pyabs, interp, safe_move_mouse,
      countToggles, click_debounce_sec, double_click_threshold,
      swipe_threshold_px, scroll_threshold_px, cooldown_swipe_sec,
      rest_toggle_hold_sec, wCam, hCam, frameR, smoothening, fistHand]

/-- C8 (amended): `restSince` is cleared on every processed frame with a
detected hand whose finger vector is not all-zero; a frame with no
detected hand leaves `restSince` unchanged, so fist-hold credit survives
hand-detection dropouts. -/
theorem C8_amended (w hs : ℚ) (s : State) (f : Frame) :
    (∀ hd : HandData, f.hand = some hd → hd.fingers ≠ [0, 0, 0, 0, 0] →
      (frameStep w hs s f).1.restSince = none) ∧
    (f.hand = none → (frameStep w hs s f).1.restSince = s.restSince) := by
  constructor
  · intro hd hh hnf
    rw [frameStep_eta w hs s f hd hh, (frameStep_pause_proj w hs s f.t hd).1]
    simp [pauseUpdate, hnf]
  · intro hh
    rw [frameStep_none w hs s f hh]

/-- C8 (witness for the amended theorem): a non-fist hand frame clears a
pending `restSince`. -/
theorem C8_witness :
    (frameStep 100 100 { initState with restSince := some 0 }
        ⟨1, some clickHand⟩).1.restSince = none :=
  (C8_amended 100 100 { initState with restSince := some 0 }
      ⟨1, some clickHand⟩).1 clickHand rfl (by decide)

/-- C10: the claim says a hand frame processed while PAUSED changes at
most `paused` and `restSince`.  False on the frame whose fist-hold
completes the unpause toggle: source line 122 reads `paused` after the
flip, so the active block runs and appends that frame's index tip to the
trail. -/
theorem C10_counterexample :
    ({ initState with paused := true, restSince := some 0 } : State).paused
        = true ∧
    (frameStep 100 100 { initState with paused := true, restSince := some 0 }
        ⟨0.35, some fistHand⟩).1.trail ≠
      ({ initState with paused := true, restSince := some 0 } : State).trail := by
  refine ⟨rfl, ?_⟩
  norm_num [frameStep, activeTail, pauseUpdate, moveStep, clickStep,
    rightClickStep, dynamicStep, swipePart, scrollPart, dequePush5, trailDx,
    trailDy, distSq, initState, pymin, pymax, pyabs, interp, safe_move_mouse,
    click_debounce_sec, double_click_threshold, swipe_threshold_px,
    scroll_threshold_px, cooldown_swipe_sec, rest_toggle_hold_sec, wCam, hCam,
    frameR, smoothening, fistHand]

/-- C10 (amended): while PAUSED, a hand frame leaves both debounce
timers and the pointer smoothing state unchanged; the trail is unchanged
too as long as the frame does not complete the unpause toggle, but on
the frame where `paused` flips to false the trail additionally receives
that frame's index-tip sample. -/
theorem C10_amended (w hs : ℚ) (s : State) (f : Frame) (hd : HandData)
    (hp : s.paused = true) (hh : f.hand = some hd) :
    (frameStep w hs s f).1.lastClick = s.lastClick ∧
    (frameStep w hs s f).1.lastAction = s.lastAction ∧
    (frameStep w hs s f).1.plocX = s.plocX ∧
    (frameStep w hs s f).1.plocY = s.plocY ∧
    ((frameStep w hs s f).1.paused = true →
      (frameStep w hs s f).1.trail = s.trail) ∧
    ((frameStep w hs s f).1.paused = false →
      (frameStep w hs s f).1.trail =
        dequePush5 s.trail (hd.indexTip.1, hd.indexTip.2, f.t)) := by
  rw [frameStep_eta w hs s f hd hh, frameStep_mk]
  set pr := pauseUpdate f.t hd.fingers s.restSince s.paused with hpr
  by_cases hq : pr.2.1
  · simp [hq]
  · have hqf : pr.2.1 = false := by simpa using hq
    have hfist : hd.fingers = [0, 0, 0, 0, 0] := by
      by_contra hnf
      have : pr.2.1 = s.paused := by
        rw [hpr]
        simp [pauseUpdate, hnf]
      rw [hqf, hp] at this
      exact Bool.false_ne_true this
    simp only [hqf, Bool.false_eq_true, if_false]
    rw [activeTail_fist w hs f.t hd _ hfist]
    simp

/-- C10 (witness for the amended theorem): a paused frame that does not
unpause leaves the click timer and the trail unchanged. -/
theorem C10_witness :
    (frameStep 100 100 { initState with paused := true }
        ⟨1, some clickHand⟩).1.lastClick =
      ({ initState with paused := true } : State).lastClick ∧
    (frameStep 100 100 { initState with paused := true }
        ⟨1, some clickHand⟩).1.trail =
      ({ initState with paused := true } : State).trail := by
  have h := C10_amended 100 100 { initState with paused := true }
    ⟨1, some clickHand⟩ clickHand rfl rfl
  refine ⟨h.1, ?_⟩
  apply h.2.2.2.2.1
  rw [(frameStep_pause_proj 100 100 { initState with paused := true }
    1 clickHand).2.1]
  norm_num [pauseUpdate, clickHand, initState]

/-! ## Event provenance lemmas -/

lemma activeTail_eq (w hs t : ℚ) (hd : HandData) (s1 : State) :
    activeTail w hs t hd s1 =
      ((dynamicStep t hd (rightClickStep t hd
          (clickStep t hd (moveStep w hs hd s1).1).1).1).1,
        (moveStep w hs hd s1).2 ++
          (clickStep t hd (moveStep w hs hd s1).1).2 ++
          (rightClickStep t hd (clickStep t hd (moveStep w hs hd s1).1).1).2 ++
          (dynamicStep t hd (rightClickStep t hd
            (clickStep t hd (moveStep w hs hd s1).1).1).1).2) := rfl

/-- Combined click + right-click behaviour: at most one click-family
event per frame, firing only when the click debounce (strict) allows,
and recording `last_click_time := now` exactly when one fires. -/
lemma clicks_spec (t : ℚ) (hd : HandData) (sm : State) :
    ((clickStep t hd sm).2 ++
        (rightClickStep t hd (clickStep t hd sm).1).2 = [] ∧
      (rightClickStep t hd (clickStep t hd sm).1).1.lastClick =
        sm.lastClick) ∨
    (((clickStep t hd sm).2 ++
          (rightClickStep t hd (clickStep t hd sm).1).2 = [Event.leftClick] ∨
        (clickStep t hd sm).2 ++
          (rightClickStep t hd (clickStep t hd sm).1).2 = [Event.doubleClick] ∨
        (clickStep t hd sm).2 ++
          (rightClickStep t hd (clickStep t hd sm).1).2 = [Event.rightClick]) ∧
      (rightClickStep t hd (clickStep t hd sm).1).1.lastClick = t ∧
      click_debounce_sec < t - sm.lastClick) := by
  rcases clickStep_cases t hd sm with hc | ⟨hdeb, hc | hc⟩
  · rw [hc]
    rcases rightClickStep_cases t hd sm with hr | ⟨hrdeb, hr⟩
    · rw [hr]; exact Or.inl ⟨rfl, rfl⟩
    · rw [hr]; exact Or.inr ⟨Or.inr (Or.inr rfl), rfl, hrdeb⟩
  · rw [hc]
    rcases rightClickStep_cases t hd ({ sm with lastClick := t } : State)
        with hr | ⟨hrdeb, hr⟩
    · rw [hr]; exact Or.inr ⟨Or.inl rfl, rfl, hdeb⟩
    · exfalso
      simp only [State.lastClick] at hrdeb
      norm_num [click_debounce_sec] at hrdeb
  · rw [hc]
    rcases rightClickStep_cases t hd ({ sm with lastClick := t } : State)
        with hr | ⟨hrdeb, hr⟩
    · rw [hr]; exact Or.inr ⟨Or.inr (Or.inl rfl), rfl, hdeb⟩
    · exfalso
      simp only [State.lastClick] at hrdeb
      norm_num [click_debounce_sec] at hrdeb

/-- Click-family provenance in the active sections: a click-family
event can fire only when the (strict) click debounce allows relative to
the incoming `last_click_time`, and firing records
`last_click_time := now`; and `last_click_time` never changes
otherwise. -/
lemma activeTail_clicks (w hs t : ℚ) (hd : HandData) (s1 : State) :
    (∀ e ∈ (activeTail w hs t hd s1).2,
      (e = Event.leftClick ∨ e = Event.doubleClick ∨ e = Event.rightClick) →
      click_debounce_sec < t - s1.lastClick ∧
        (activeTail w hs t hd s1).1.lastClick = t) ∧
    ((activeTail w hs t hd s1).1.lastClick = t ∨
      (activeTail w hs t hd s1).1.lastClick = s1.lastClick) := by
  rw [activeTail_eq]
  obtain ⟨m1, m2, m3, m4, m5, m6⟩ := moveStep_spec w hs hd s1
  obtain ⟨d1, d2, d3, d4, d5, d6, d7⟩ :=
    dynamicStep_spec t hd (rightClickStep t hd
      (clickStep t hd (moveStep w hs hd s1).1).1).1
  have hdev : (dynamicStep t hd (rightClickStep t hd
      (clickStep t hd (moveStep w hs hd s1).1).1).1).2 = [] ∨
      ∀ e ∈ (dynamicStep t hd (rightClickStep t hd
        (clickStep t hd (moveStep w hs hd s1).1).1).1).2,
        e = Event.swipeLeft ∨ e = Event.swipeRight ∨
        e = Event.scrollUp ∨ e = Event.scrollDown := by
    rcases d7 with ⟨_, hd0⟩ | ⟨_, ⟨_, hd0 | hd0⟩ | ⟨_, hd0 | hd0⟩⟩ <;>
      simp [hd0]
  have hmov : ∀ e ∈ (moveStep w hs hd s1).2, ∃ a b, e = Event.move a b := by
    rcases m6 with hm | ⟨a, b, hm⟩ <;> simp [hm]
  rcases clicks_spec t hd (moveStep w hs hd s1).1 with
      ⟨hcr, hlc⟩ | ⟨hcr, hlc, hdeb⟩
  · have hce : (clickStep t hd (moveStep w hs hd s1).1).2 = [] ∧
        (rightClickStep t hd (clickStep t hd
          (moveStep w hs hd s1).1).1).2 = [] :=
      List.append_eq_nil.mp hcr
    constructor
    · intro e he hcl
      exfalso
      simp only [List.mem_append, hce.1, hce.2, List.not_mem_nil,
        or_false] at he
      rcases he with he | he
      · obtain ⟨a, b, rfl⟩ := hmov e he
        rcases hcl with h | h | h <;> exact Event.noConfusion h
      · rcases hdev with hd0 | hd0
        · rw [hd0] at he; exact List.not_mem_nil e he
        · rcases hd0 e he with rfl | rfl | rfl | rfl <;>
            rcases hcl with h | h | h <;> exact Event.noConfusion h
    · right
      rw [d3, hlc, m1]
  · constructor
    · intro e he hcl
      refine ⟨by rw [← m1]; exact hdeb, by rw [d3, hlc]⟩
    · left
      rw [d3, hlc]

/-- Swipe/scroll provenance in the active sections: a swipe fires only
when the 0.7s cooldown (strict) allows, a scroll only when the 0.2s
cooldown (strict) allows, both relative to the incoming
`last_action_time`; firing records `last_action_time := now`, which
never changes otherwise. -/
lemma activeTail_actions (w hs t : ℚ) (hd : HandData) (s1 : State) :
    (∀ e ∈ (activeTail w hs t hd s1).2,
      (e = Event.swipeLeft ∨ e = Event.swipeRight) →
      cooldown_swipe_sec < t - s1.lastAction ∧
        (activeTail w hs t hd s1).1.lastAction = t) ∧
    (∀ e ∈ (activeTail w hs t hd s1).2,
      (e = Event.scrollUp ∨ e = Event.scrollDown) →
      (0.2 : ℚ) < t - s1.lastAction ∧
        (activeTail w hs t hd s1).1.lastAction = t) ∧
    ((activeTail w hs t hd s1).1.lastAction = t ∨
      (activeTail w hs t hd s1).1.lastAction = s1.lastAction) := by
  rw [activeTail_eq]
  obtain ⟨m1, m2, m3, m4, m5, m6⟩ := moveStep_spec w hs hd s1
  obtain ⟨c1, c2, c3, c4, c5, c6⟩ :=
    clickStep_spec t hd (moveStep w hs hd s1).1
  obtain ⟨r1, r2, r3, r4, r5, r6⟩ :=
    rightClickStep_spec t hd (clickStep t hd (moveStep w hs hd s1).1).1
  obtain ⟨d1, d2, d3, d4, d5, d6, d7⟩ :=
    dynamicStep_spec t hd (rightClickStep t hd
      (clickStep t hd (moveStep w hs hd s1).1).1).1
  have hla : (rightClickStep t hd (clickStep t hd
      (moveStep w hs hd s1).1).1).1.lastAction = s1.lastAction := by
    rw [r3, c3, m2]
  rw [hla] at d7
  have hmov : ∀ e ∈ (moveStep w hs hd s1).2, ∃ a b, e = Event.move a b := by
    rcases m6 with hm | ⟨a, b, hm⟩ <;> simp [hm]
  have hclk : ∀ e, e ∈ (clickStep t hd (moveStep w hs hd s1).1).2 ++
      (rightClickStep t hd (clickStep t hd (moveStep w hs hd s1).1).1).2 →
      e = Event.leftClick ∨ e = Event.doubleClick ∨ e = Event.rightClick := by
    rcases clicks_spec t hd (moveStep w hs hd s1).1 with
        ⟨hcr, _⟩ | ⟨hcr | hcr | hcr, _, _⟩
    · intro e he; rw [hcr] at he; exact absurd he (List.not_mem_nil e)
    · intro e he; rw [hcr] at he; rw [List.mem_singleton.mp he]; simp
    · intro e he; rw [hcr] at he; rw [List.mem_singleton.mp he]; simp
    · intro e he; rw [hcr] at he; rw [List.mem_singleton.mp he]; simp
  refine ⟨?_, ?_, ?_⟩
  · intro e he hsw
    simp only [List.mem_append] at he
    rcases he with ((he | he) | he) | he
    · obtain ⟨a, b, rfl⟩ := hmov e he
      rcases hsw with h | h <;> exact Event.noConfusion h
    · rcases hclk e (List.mem_append_left _ he) with rfl | rfl | rfl <;>
        rcases hsw with h | h <;> exact Event.noConfusion h
    · rcases hclk e (List.mem_append_right _ he) with rfl | rfl | rfl <;>
        rcases hsw with h | h <;> exact Event.noConfusion h
    · rcases d7 with ⟨hEq, hD⟩ | ⟨hEq, hrest⟩
      · rw [hD] at he
        exact absurd he (List.not_mem_nil e)
      · rcases hrest with ⟨hcd, hD | hD⟩ | ⟨hcd, hD | hD⟩
        · exact ⟨hcd, hEq⟩
        · exact ⟨hcd, hEq⟩
        · rw [hD] at he
          rw [List.mem_singleton.mp he] at hsw
          rcases hsw with h | h <;> exact Event.noConfusion h
        · rw [hD] at he
          rw [List.mem_singleton.mp he] at hsw
          rcases hsw with h | h <;> exact Event.noConfusion h
  · intro e he hsc
    simp only [List.mem_append] at he
    rcases he with ((he | he) | he) | he
    · obtain ⟨a, b, rfl⟩ := hmov e he
      rcases hsc with h | h <;> exact Event.noConfusion h
    · rcases hclk e (List.mem_append_left _ he) with rfl | rfl | rfl <;>
        rcases hsc with h | h <;> exact Event.noConfusion h
    · rcases hclk e (List.mem_append_right _ he) with rfl | rfl | rfl <;>
        rcases hsc with h | h <;> exact Event.noConfusion h
    · rcases d7 with ⟨hEq, hD⟩ | ⟨hEq, hrest⟩
      · rw [hD] at he
        exact absurd he (List.not_mem_nil e)
      · rcases hrest with ⟨hcd, hD | hD⟩ | ⟨hcd, hD | hD⟩
        · rw [hD] at he
          rw [List.mem_singleton.mp he] at hsc
          rcases hsc with h | h <;> exact Event.noConfusion h
        · rw [hD] at he
          rw [List.mem_singleton.mp he] at hsc
          rcases hsc with h | h <;> exact Event.noConfusion h
        · exact ⟨hcd, hEq⟩
        · exact ⟨hcd, hEq⟩
  · rcases d7 with ⟨hEq, _⟩ | ⟨hEq, _⟩
    · right; exact hEq
    · left; exact hEq

/-- A hand frame either stays paused (pause fields updated, at most a
toggle emitted) or runs the active tail on the pause-updated state. -/
lemma frameStep_shape (w hs : ℚ) (s : State) (t : ℚ) (hd : HandData) :
    (∃ (rs : Option ℚ) (pz : Bool), frameStep w hs s ⟨t, some hd⟩ =
        (({ s with restSince := rs, paused := true } : State),
          if pz then [Event.pauseToggle] else [])) ∨
    (∃ (rs : Option ℚ) (pz : Bool), frameStep w hs s ⟨t, some hd⟩ =
        ((activeTail w hs t hd
            { s with restSince := rs, paused := false }).1,
          (if pz then [Event.pauseToggle] else []) ++
            (activeTail w hs t hd
              { s with restSince := rs, paused := false }).2)) := by
  rw [frameStep_mk]
  by_cases hq : (pauseUpdate t hd.fingers s.restSince s.paused).2.1
  · left
    exact ⟨(pauseUpdate t hd.fingers s.restSince s.paused).1,
      (pauseUpdate t hd.fingers s.restSince s.paused).2.2, by simp [hq]⟩
  · right
    refine ⟨(pauseUpdate t hd.fingers s.restSince s.paused).1,
      (pauseUpdate t hd.fingers s.restSince s.paused).2.2, ?_⟩
    have hqf : (pauseUpdate t hd.fingers s.restSince s.paused).2.1 = false :=
      by simpa using hq
    simp [hqf]

/-- Click-family events of a frame fire only when the strict click
debounce allows relative to the frame-entry `last_click_time`, and then
`last_click_time` ends at the frame's timestamp. -/
lemma frameStep_click_necessary (w hs : ℚ) (s : State) (f : Frame) :
    ∀ e ∈ (frameStep w hs s f).2,
      (e = Event.leftClick ∨ e = Event.doubleClick ∨ e = Event.rightClick) →
      click_debounce_sec < f.t - s.lastClick ∧
        (frameStep w hs s f).1.lastClick = f.t := by
  obtain ⟨t, hand⟩ := f
  cases hand with
  | none =>
    intro e he
    rw [frameStep_none w hs s _ rfl] at he
    exact absurd he (List.not_mem_nil e)
  | some hd =>
    intro e he hcl
    rcases frameStep_shape w hs s t hd with ⟨rs, pz, hfs⟩ | ⟨rs, pz, hfs⟩
    · rw [hfs] at he
      exfalso
      cases pz with
      | false => simp at he
      | true =>
        simp at he
        rw [he] at hcl
        rcases hcl with h | h | h <;> exact Event.noConfusion h
    · rw [hfs] at he ⊢
      simp only [List.mem_append] at he
      obtain ⟨hnec, _⟩ := activeTail_clicks w hs t hd
        { s with restSince := rs, paused := false }
      rcases he with he | he
      · exfalso
        cases pz with
        | false => simp at he
        | true =>
          simp at he
          rw [he] at hcl
          rcases hcl with h | h | h <;> exact Event.noConfusion h
      · exact hnec e he hcl

/-- Swipe and scroll events of a frame fire only when their respective
strict cooldowns allow relative to the frame-entry `last_action_time`,
and then `last_action_time` ends at the frame's timestamp. -/
lemma frameStep_action_necessary (w hs : ℚ) (s : State) (f : Frame) :
    (∀ e ∈ (frameStep w hs s f).2,
      (e = Event.swipeLeft ∨ e = Event.swipeRight) →
      cooldown_swipe_sec < f.t - s.lastAction ∧
        (frameStep w hs s f).1.lastAction = f.t) ∧
    (∀ e ∈ (frameStep w hs s f).2,
      (e = Event.scrollUp ∨ e = Event.scrollDown) →
      (0.2 : ℚ) < f.t - s.lastAction ∧
        (frameStep w hs s f).1.lastAction = f.t) := by
  obtain ⟨t, hand⟩ := f
  cases hand with
  | none =>
    constructor <;>
    · intro e he
      rw [frameStep_none w hs s _ rfl] at he
      exact absurd he (List.not_mem_nil e)
  | some hd =>
    rcases frameStep_shape w hs s t hd with ⟨rs, pz, hfs⟩ | ⟨rs, pz, hfs⟩
    · constructor <;>
      · intro e he hev
        rw [hfs] at he
        exfalso
        cases pz with
        | false => simp at he
        | true =>
          simp at he
          rw [he] at hev
          rcases hev with h | h <;> exact Event.noConfusion h
    · obtain ⟨hswn, hscn, _⟩ := activeTail_actions w hs t hd
        { s with restSince := rs, paused := false }
      constructor
      · intro e he hev
        rw [hfs] at he ⊢
        simp only [List.mem_append] at he
        rcases he with he | he
        · exfalso
          cases pz with
          | false => simp at he
          | true =>
            simp at he
            rw [he] at hev
            rcases hev with h | h <;> exact Event.noConfusion h
        · exact hswn e he hev
      · intro e he hev
        rw [hfs] at he ⊢
        simp only [List.mem_append] at he
        rcases he with he | he
        · exfalso
          cases pz with
          | false => simp at he
          | true =>
            simp at he
            rw [he] at hev
            rcases hev with h | h <;> exact Event.noConfusion h
        · exact hscn e he hev

/-- C2: the claim says the debounce permits a trigger iff
`now − lastTrigger ≥ minInterval`.  False at the boundary: the source
uses strict `>` (lines 137, 141, 150, 163, 174), so with the click
timer at 0 a fully qualifying click frame at exactly t = 0.12s fires
nothing, although the spec-side `allow` returns true there; the same
frame at t = 0.13s fires. -/
theorem C2_counterexample :
    allow_spec initState.lastClick 0.12 click_debounce_sec = true ∧
    (frameStep 100 100 initState ⟨0.12, some clickHand⟩).2 = [] ∧
    (frameStep 100 100 initState ⟨0.13, some clickHand⟩).2 =
      [Event.leftClick] := by
  refine ⟨by norm_num [allow_spec, initState, click_debounce_sec], ?_, ?_⟩ <;>
    norm_num [frameStep, activeTail, pauseUpdate, moveStep, clickStep,
      rightClickStep, dynamicStep, swipePart, scrollPart, dequePush5, trailDx,
      trailDy, distSq, initState, pymin, pymax, pyabs, interp, safe_move_mouse,
      click_debounce_sec, double_click_threshold, swipe_threshold_px,
      scroll_threshold_px, cooldown_swipe_sec, rest_toggle_hold_sec, wCam,
      hCam, frameR, smoothening, clickHand]

/-- C2 (amended): the debounce check permits a trigger iff
`now − lastTrigger` is STRICTLY greater than the category's minimum
interval (0.12s clicks, 0.7s swipes, 0.2s scroll); consequently two
qualifying trigger attempts in the same category separated by less than
that interval produce at most one actual event. -/
theorem C2_amended :
    (∀ (w hs : ℚ) (s : State) (f : Frame) (e : Event),
      e ∈ (frameStep w hs s f).2 →
      (e = Event.leftClick ∨ e = Event.doubleClick ∨ e = Event.rightClick) →
      click_debounce_sec < f.t - s.lastClick) ∧
    (∀ (w hs : ℚ) (s : State) (f1 f2 : Frame),
      (∃ e ∈ (frameStep w hs s f1).2,
        e = Event.leftClick ∨ e = Event.doubleClick ∨ e = Event.rightClick) →
      f2.t - f1.t < click_debounce_sec →
      Event.leftClick ∉ (frameStep w hs (frameStep w hs s f1).1 f2).2 ∧
      Event.doubleClick ∉ (frameStep w hs (frameStep w hs s f1).1 f2).2 ∧
      Event.rightClick ∉ (frameStep w hs (frameStep w hs s f1).1 f2).2) ∧
    (∀ (w hs : ℚ) (s : State) (f1 f2 : Frame),
      (∃ e ∈ (frameStep w hs s f1).2,
        e = Event.swipeLeft ∨ e = Event.swipeRight) →
      f2.t - f1.t < cooldown_swipe_sec →
      Event.swipeLeft ∉ (frameStep w hs (frameStep w hs s f1).1 f2).2 ∧
      Event.swipeRight ∉ (frameStep w hs (frameStep w hs s f1).1 f2).2) ∧
    (∀ (w hs : ℚ) (s : State) (f1 f2 : Frame),
      (∃ e ∈ (frameStep w hs s f1).2,
        e = Event.swipeLeft ∨ e = Event.swipeRight ∨
        e = Event.scrollUp ∨ e = Event.scrollDown) →
      f2.t - f1.t < (0.2 : ℚ) →
      Event.scrollUp ∉ (frameStep w hs (frameStep w hs s f1).1 f2).2 ∧
      Event.scrollDown ∉ (frameStep w hs (frameStep w hs s f1).1 f2).2) := by
  refine ⟨?_, ?_, ?_, ?_⟩
  · intro w hs s f e he hcl
    exact (frameStep_click_necessary w hs s f e he hcl).1
  · intro w hs s f1 f2 hev hgap
    obtain ⟨e, he, hcl⟩ := hev
    obtain ⟨_, hlc1⟩ := frameStep_click_necessary w hs s f1 e he hcl
    refine ⟨fun hm => ?_, fun hm => ?_, fun hm => ?_⟩
    · have hc2 := (frameStep_click_necessary w hs
        (frameStep w hs s f1).1 f2 _ hm (Or.inl rfl)).1
      rw [hlc1] at hc2
      linarith
    · have hc2 := (frameStep_click_necessary w hs
        (frameStep w hs s f1).1 f2 _ hm (Or.inr (Or.inl rfl))).1
      rw [hlc1] at hc2
      linarith
    · have hc2 := (frameStep_click_necessary w hs
        (frameStep w hs s f1).1 f2 _ hm (Or.inr (Or.inr rfl))).1
      rw [hlc1] at hc2
      linarith
  · intro w hs s f1 f2 hev hgap
    obtain ⟨e, he, hsw⟩ := hev
    obtain ⟨_, hla1⟩ := (frameStep_action_necessary w hs s f1).1 e he hsw
    refine ⟨fun hm => ?_, fun hm => ?_⟩
    · have hc2 := ((frameStep_action_necessary w hs
        (frameStep w hs s f1).1 f2).1 _ hm (Or.inl rfl)).1
      rw [hla1] at hc2
      linarith
    · have hc2 := ((frameStep_action_necessary w hs
        (frameStep w hs s f1).1 f2).1 _ hm (Or.inr rfl)).1
      rw [hla1] at hc2
      linarith
  · intro w hs s f1 f2 hev hgap
    obtain ⟨e, he, hact⟩ := hev
    have hla1 : (frameStep w hs s f1).1.lastAction = f1.t := by
      rcases hact with h | h | h | h
      · exact ((frameStep_action_necessary w hs s f1).1 e he (Or.inl h)).2
      · exact ((frameStep_action_necessary w hs s f1).1 e he (Or.inr h)).2
      · exact ((frameStep_action_necessary w hs s f1).2 e he (Or.inl h)).2
      · exact ((frameStep_action_necessary w hs s f1).2 e he (Or.inr h)).2
    refine ⟨fun hm => ?_, fun hm => ?_⟩
    · have hc2 := ((frameStep_action_necessary w hs
        (frameStep w hs s f1).1 f2).2 _ hm (Or.inl rfl)).1
      rw [hla1] at hc2
      linarith
    · have hc2 := ((frameStep_action_necessary w hs
        (frameStep w hs s f1).1 f2).2 _ hm (Or.inr rfl)).1
      rw [hla1] at hc2
      linarith

/-- C2 (witness for the amended theorem): a left click at t=1s from the
initial state suppresses any click on an identical frame at t=1.05s. -/
theorem C2_witness :
    Event.leftClick ∉ (frameStep 100 100
      (frameStep 100 100 initState ⟨1, some clickHand⟩).1
      ⟨1.05, some clickHand⟩).2 ∧
    Event.doubleClick ∉ (frameStep 100 100
      (frameStep 100 100 initState ⟨1, some clickHand⟩).1
      ⟨1.05, some clickHand⟩).2 ∧
    Event.rightClick ∉ (frameStep 100 100
      (frameStep 100 100 initState ⟨1, some clickHand⟩).1
      ⟨1.05, some clickHand⟩).2 :=
  C2_amended.2.1 100 100 initState ⟨1, some clickHand⟩ ⟨1.05, some clickHand⟩
    ⟨Event.leftClick, by
      norm_num [frameStep, activeTail, pauseUpdate, moveStep, clickStep,
        rightClickStep, dynamicStep, swipePart, scrollPart, dequePush5,
        trailDx, trailDy, distSq, initState, pymin, pymax, pyabs, interp,
        safe_move_mouse, click_debounce_sec, double_click_threshold,
        swipe_threshold_px, scroll_threshold_px, cooldown_swipe_sec,
        rest_toggle_hold_sec, wCam, hCam, frameR, smoothening, clickHand],
      Or.inl rfl⟩
    (by norm_num [click_debounce_sec])

/-- When the pause controller neither holds nor toggles (no fist, not
paused), the frame is exactly the active tail on the cleared state. -/
lemma frameStep_active_nofist (w hs : ℚ) (s : State) (t : ℚ)
    (hd : HandData) (hnf : hd.fingers ≠ [0, 0, 0, 0, 0])
    (hp : s.paused = false) :
    frameStep w hs s ⟨t, some hd⟩ =
      activeTail w hs t hd { s with restSince := none, paused := false } := by
  rw [frameStep_mk, hp]
  have hpu : pauseUpdate t hd.fingers s.restSince false =
      (none, false, false) := by
    simp [pauseUpdate, hnf]
  simp [hpu]

lemma clickStep_fire_left (t : ℚ) (hd : HandData) (sm : State)
    (h1 : hd.fingers.getD 1 0 = 1) (h2 : hd.fingers.getD 2 0 = 1)
    (hlt : distSq hd.indexTip hd.middleTip < 35 ^ 2)
    (hdeb : click_debounce_sec < t - sm.lastClick) :
    clickStep t hd sm = ({ sm with lastClick := t }, [Event.leftClick]) := by
  unfold clickStep
  rw [if_pos ⟨h1, h2⟩, if_pos ⟨hlt, hdeb⟩]

lemma clickStep_fire_double (t : ℚ) (hd : HandData) (sm : State)
    (h1 : hd.fingers.getD 1 0 = 1) (h2 : hd.fingers.getD 2 0 = 1)
    (hgt : double_click_threshold ^ 2 < distSq hd.indexTip hd.middleTip)
    (hdeb : click_debounce_sec < t - sm.lastClick) :
    clickStep t hd sm = ({ sm with lastClick := t }, [Event.doubleClick]) := by
  unfold clickStep
  have hgt' : (3600 : ℤ) < distSq hd.indexTip hd.middleTip := by
    norm_num [double_click_threshold] at hgt
    exact hgt
  have hn : ¬ (distSq hd.indexTip hd.middleTip < 35 ^ 2 ∧
      click_debounce_sec < t - sm.lastClick) := by
    rintro ⟨hc, _⟩
    norm_num at hc
    omega
  rw [if_pos ⟨h1, h2⟩, if_neg hn, if_pos ⟨hgt, hdeb⟩]

lemma clickStep_dead (t : ℚ) (hd : HandData) (sm : State)
    (h35 : 35 ^ 2 < distSq hd.indexTip hd.middleTip)
    (h60 : distSq hd.indexTip hd.middleTip < double_click_threshold ^ 2) :
    clickStep t hd sm = (sm, []) := by
  have h35' : (1225 : ℤ) < distSq hd.indexTip hd.middleTip := by
    norm_num at h35
    exact h35
  have h60' : distSq hd.indexTip hd.middleTip < (3600 : ℤ) := by
    norm_num [double_click_threshold] at h60
    exact h60
  unfold clickStep
  split_ifs with hf hc hd2
  · exfalso
    obtain ⟨hc1, _⟩ := hc
    norm_num at hc1
    omega
  · exfalso
    obtain ⟨hd1, _⟩ := hd2
    norm_num [double_click_threshold] at hd1
    omega
  · rfl
  · rfl

lemma rightClickStep_after_click (t : ℚ) (hd : HandData) (sc : State)
    (hlc : sc.lastClick = t) : rightClickStep t hd sc = (sc, []) := by
  rcases rightClickStep_cases t hd sc with hr | ⟨hrdeb, hr⟩
  · exact hr
  · exfalso
    rw [hlc] at hrdeb
    norm_num [click_debounce_sec] at hrdeb

lemma not_mem_moveEvents (w hs : ℚ) (hd : HandData) (s1 : State)
    (e : Event) (hne : ∀ a b, e ≠ Event.move a b) :
    e ∉ (moveStep w hs hd s1).2 := by
  rcases (moveStep_spec w hs hd s1).2.2.2.2.2 with hm | ⟨a, b, hm⟩ <;> rw [hm]
  · simp
  · simp only [List.mem_singleton]
    exact hne a b

lemma not_mem_dynEvents (t : ℚ) (hd : HandData) (sd : State) (e : Event)
    (hne1 : e ≠ Event.swipeLeft) (hne2 : e ≠ Event.swipeRight)
    (hne3 : e ≠ Event.scrollUp) (hne4 : e ≠ Event.scrollDown) :
    e ∉ (dynamicStep t hd sd).2 := by
  obtain ⟨_, _, _, _, _, _, d7⟩ := dynamicStep_spec t hd sd
  rcases d7 with ⟨_, hD⟩ | ⟨_, ⟨_, hD | hD⟩ | ⟨_, hD | hD⟩⟩ <;> rw [hD] <;>
    simp [hne1, hne2, hne3, hne4]

/-- C3: with index and middle extended and the click debounce allowing,
`d1 < 35px` fires a LeftClick (never a DoubleClick), `d1 > 60px` fires a
DoubleClick (never a LeftClick), and `d1` in the dead zone (35, 60)
fires neither.  Distances are compared via their squares. -/
theorem C3_click_thresholds (w hs : ℚ) (s : State) (t : ℚ) (hd : HandData)
    (h1 : hd.fingers.getD 1 0 = 1) (h2 : hd.fingers.getD 2 0 = 1)
    (hp : s.paused = false)
    (hdeb : click_debounce_sec < t - s.lastClick) :
    (distSq hd.indexTip hd.middleTip < 35 ^ 2 →
      Event.leftClick ∈ (frameStep w hs s ⟨t, some hd⟩).2 ∧
      Event.doubleClick ∉ (frameStep w hs s ⟨t, some hd⟩).2) ∧
    (double_click_threshold ^ 2 < distSq hd.indexTip hd.middleTip →
      Event.doubleClick ∈ (frameStep w hs s ⟨t, some hd⟩).2 ∧
      Event.leftClick ∉ (frameStep w hs s ⟨t, some hd⟩).2) ∧
    (35 ^ 2 < distSq hd.indexTip hd.middleTip ∧
      distSq hd.indexTip hd.middleTip < double_click_threshold ^ 2 →
      Event.leftClick ∉ (frameStep w hs s ⟨t, some hd⟩).2 ∧
      Event.doubleClick ∉ (frameStep w hs s ⟨t, some hd⟩).2) := by
  have hnf : hd.fingers ≠ [0, 0, 0, 0, 0] := fun he => by
    rw [he] at h1
    exact absurd h1 (by decide)
  rw [frameStep_active_nofist w hs s t hd hnf hp, activeTail_eq]
  set s1 : State := { s with restSince := none, paused := false } with hs1
  have hm1 : (moveStep w hs hd s1).1.lastClick = s.lastClick :=
    (moveStep_spec w hs hd s1).1
  have hdebm : click_debounce_sec < t - (moveStep w hs hd s1).1.lastClick := by
    rw [hm1]
    exact hdeb
  refine ⟨fun hlt => ?_, fun hgt => ?_, fun hdz => ?_⟩
  · have hC := clickStep_fire_left t hd (moveStep w hs hd s1).1 h1 h2 hlt hdebm
    have hRC := rightClickStep_after_click t hd
      (clickStep t hd (moveStep w hs hd s1).1).1 (by rw [hC])
    constructor
    · simp only [List.mem_append]
      left; left; right
      rw [hC]
      simp
    · intro hmem
      simp only [List.mem_append] at hmem
      rcases hmem with ((hm | hm) | hm) | hm
      · exact not_mem_moveEvents w hs hd s1 _
          (fun a b h => Event.noConfusion h) hm
      · rw [hC] at hm; simp at hm
      · rw [hRC] at hm; simp at hm
      · exact not_mem_dynEvents t hd _ _ (by decide) (by decide) (by decide)
          (by decide) hm
  · have hC := clickStep_fire_double t hd (moveStep w hs hd s1).1 h1 h2 hgt hdebm
    have hRC := rightClickStep_after_click t hd
      (clickStep t hd (moveStep w hs hd s1).1).1 (by rw [hC])
    constructor
    · simp only [List.mem_append]
      left; left; right
      rw [hC]
      simp
    · intro hmem
      simp only [List.mem_append] at hmem
      rcases hmem with ((hm | hm) | hm) | hm
      · exact not_mem_moveEvents w hs hd s1 _
          (fun a b h => Event.noConfusion h) hm
      · rw [hC] at hm; simp at hm
      · rw [hRC] at hm; simp at hm
      · exact not_mem_dynEvents t hd _ _ (by decide) (by decide) (by decide)
          (by decide) hm
  · have hC := clickStep_dead t hd (moveStep w hs hd s1).1 hdz.1 hdz.2
    constructor <;>
    · intro hmem
      simp only [List.mem_append] at hmem
      rcases hmem with ((hm | hm) | hm) | hm
      · exact not_mem_moveEvents w hs hd s1 _
          (fun a b h => Event.noConfusion h) hm
      · rw [hC] at hm; simp at hm
      · rcases rightClickStep_cases t hd
            (clickStep t hd (moveStep w hs hd s1).1).1 with hr | ⟨_, hr⟩ <;>
          rw [hr] at hm <;> simp at hm
      · exact not_mem_dynEvents t hd _ _ (by decide) (by decide) (by decide)
          (by decide) hm

/-- C3 (witness): index and middle tips 11.18px apart at t=1s from the
initial state fire a LeftClick and no DoubleClick. -/
theorem C3_witness :
    Event.leftClick ∈ (frameStep 100 100 initState ⟨1, some clickHand⟩).2 ∧
    Event.doubleClick ∉ (frameStep 100 100 initState ⟨1, some clickHand⟩).2 :=
  (C3_click_thresholds 100 100 initState 1 clickHand (by decide) (by decide)
    rfl (by norm_num [click_debounce_sec, initState])).1 (by decide)

lemma pyclamp_bounds (hi v : ℚ) (h : 0 ≤ hi) :
    0 ≤ pymax 0 (pymin hi v) ∧ pymax 0 (pymin hi v) ≤ hi := by
  unfold pymax pymin
  split_ifs <;> constructor <;> linarith

/-- C4: every move command actually issued to the backend carries
coordinates clamped into `[0, wScr-1] × [0, hScr-1]` — never negative
and never at or beyond the screen dimension — for any input, because
`safe_move_mouse` clamps before calling `autopy.mouse.move`. -/
theorem C4_move_clamped (w hs : ℚ) (s : State) (f : Frame)
    (hw : 1 ≤ w) (hh : 1 ≤ hs) :
    ∀ x y : ℚ, Event.move x y ∈ (frameStep w hs s f).2 →
      0 ≤ x ∧ x ≤ w - 1 ∧ 0 ≤ y ∧ y ≤ hs - 1 := by
  obtain ⟨t, hand⟩ := f
  cases hand with
  | none =>
    intro x y hm
    rw [frameStep_none w hs s _ rfl] at hm
    exact absurd hm (List.not_mem_nil _)
  | some hd =>
    intro x y hm
    rcases frameStep_shape w hs s t hd with ⟨rs, pz, hfs⟩ | ⟨rs, pz, hfs⟩
    · rw [hfs] at hm
      cases pz <;> simp at hm
    · rw [hfs] at hm
      simp only [List.mem_append] at hm
      rcases hm with hm | hm
      · cases pz <;> simp at hm
      · rw [activeTail_eq] at hm
        simp only [List.mem_append] at hm
        rcases hm with ((hm | hm) | hm) | hm
        · rcases moveStep_cases w hs hd
              { s with restSince := rs, paused := false } with
            hmv | ⟨px, py, hmv⟩
          · rw [hmv] at hm
            simp at hm
          · rw [hmv] at hm
            simp only [List.mem_singleton] at hm
            injection hm with hx hy
            subst hx
            subst hy
            refine ⟨?_, ?_, ?_, ?_⟩
            · exact (pyclamp_bounds (w - 1) _ (by linarith)).1
            · exact (pyclamp_bounds (w - 1) _ (by linarith)).2
            · exact (pyclamp_bounds (hs - 1) _ (by linarith)).1
            · exact (pyclamp_bounds (hs - 1) _ (by linarith)).2
        · rcases clickStep_cases t hd (moveStep w hs hd
              { s with restSince := rs, paused := false }).1 with
            hc | ⟨_, hc | hc⟩ <;> rw [hc] at hm <;> simp at hm
        · rcases rightClickStep_cases t hd (clickStep t hd (moveStep w hs hd
              { s with restSince := rs, paused := false }).1).1 with
            hr | ⟨_, hr⟩ <;> rw [hr] at hm <;> simp at hm
        · exact absurd hm (not_mem_dynEvents t hd _ _
            (fun h => Event.noConfusion h) (fun h => Event.noConfusion h)
            (fun h => Event.noConfusion h) (fun h => Event.noConfusion h))

/-- C4 (witness): from the initial state, an index-only frame with tip
at `(50, 50)` on a 100×100 screen issues a move to `(99, 0)`, inside
`[0, 99] × [0, 99]`. -/
theorem C4_witness :
    0 ≤ (99 : ℚ) ∧ (99 : ℚ) ≤ 100 - 1 ∧ 0 ≤ (0 : ℚ) ∧ (0 : ℚ) ≤ 100 - 1 :=
  C4_move_clamped 100 100 initState ⟨0, some indexHand⟩ (by norm_num)
    (by norm_num) 99 0 (by
      norm_num [frameStep, activeTail, pauseUpdate, moveStep, clickStep,
        rightClickStep, dynamicStep, swipePart, scrollPart, dequePush5,
        trailDx, trailDy, distSq, initState, pymin, pymax, pyabs, interp,
        safe_move_mouse, click_debounce_sec, double_click_threshold,
        swipe_threshold_px, scroll_threshold_px, cooldown_swipe_sec,
        rest_toggle_hold_sec, wCam, hCam, frameR, smoothening, indexHand])

lemma clickStepE_ok (bk : Backend) (t : ℚ) (hd : HandData) (s : State)
    (hc : bk.clickOk = true) (hdc : bk.doubleClickOk = true) :
    clickStepE bk t hd s = Except.ok (clickStep t hd s) := by
  unfold clickStepE clickStep
  simp only [hc, hdc]
  split_ifs <;> rfl

lemma rightClickStepE_ok (bk : Backend) (t : ℚ) (hd : HandData) (s : State)
    (hr : bk.rightClickOk = true) :
    rightClickStepE bk t hd s = Except.ok (rightClickStep t hd s) := by
  unfold rightClickStepE rightClickStep
  simp only [hr]
  split_ifs <;> rfl

lemma swipePartE_ok (bk : Backend) (t : ℚ) (hd : HandData) (dx dy : ℤ)
    (s1 : State) (hhk : bk.hotkeyOk = true) :
    swipePartE bk t hd dx dy s1 = Except.ok (swipePart t hd dx dy s1) := by
  unfold swipePartE swipePart
  simp only [hhk]
  split_ifs <;> rfl

lemma scrollPartE_ok (bk : Backend) (t : ℚ) (hd : HandData) (dy : ℤ)
    (s2 : State) (hsc : bk.scrollOk = true) :
    scrollPartE bk t hd dy s2 = Except.ok (scrollPart t hd dy s2) := by
  unfold scrollPartE scrollPart
  simp only [hsc]
  split_ifs <;> rfl

lemma dynamicStepE_ok (bk : Backend) (t : ℚ) (hd : HandData) (s : State)
    (hsc : bk.scrollOk = true) (hhk : bk.hotkeyOk = true) :
    dynamicStepE bk t hd s = Except.ok (dynamicStep t hd s) := by
  unfold dynamicStepE dynamicStep
  simp only [swipePartE_ok _ _ _ _ _ _ hhk, scrollPartE_ok _ _ _ _ _ hsc]
  split_ifs <;> rfl

/-- C5: the claim says every backend failure (move, click, double-click,
right-click, scroll, hotkey) is caught, logged and swallowed.  False:
only `autopy.mouse.move` is guarded (`safe_move_mouse`'s try/except);
`pyautogui.click` at source line 138 is unguarded, so a backend failure
there escapes the frame loop: a qualifying click frame with a failing
click backend aborts with the click command's exception. -/
theorem C5_counterexample :
    escapedCmd (frameStepE
      { moveOk := true, clickOk := false, doubleClickOk := true
        rightClickOk := true, scrollOk := true, hotkeyOk := true }
      100 100 initState ⟨1, some clickHand⟩) = some Cmd.clickCmd := by
  norm_num [frameStepE, clickStepE, rightClickStepE, dynamicStepE, escapedCmd,
    pauseUpdate, moveStep, clickStep, rightClickStep, dynamicStep, swipePart,
    scrollPart, dequePush5, trailDx, trailDy, distSq, initState, pymin, pymax,
    pyabs, interp, safe_move_mouse, click_debounce_sec, double_click_threshold,
    swipe_threshold_px, scroll_threshold_px, cooldown_swipe_sec,
    rest_toggle_hold_sec, wCam, hCam, frameR, smoothening, clickHand]

/-- C5 (amended): only the mouse-move backend call is guarded: its
failures are swallowed inside `safe_move_mouse`, so as long as the
click, double-click, right-click, scroll and hotkey calls succeed, no
exception escapes any frame, whatever the move backend does; a failure
of one of the unguarded calls, however, propagates out of the frame
loop. -/
theorem C5_amended (mv : Bool) (w hs : ℚ) (s : State) (f : Frame) :
    frameStepE
      { moveOk := mv, clickOk := true, doubleClickOk := true
        rightClickOk := true, scrollOk := true, hotkeyOk := true }
      w hs s f = Except.ok (frameStep w hs s f) := by
  obtain ⟨t, hand⟩ := f
  cases hand with
  | none => rfl
  | some hd =>
    show frameStepE _ w hs s ⟨t, some hd⟩ = _
    unfold frameStepE
    rw [frameStep_mk]
    simp only [clickStepE_ok, rightClickStepE_ok, dynamicStepE_ok,
      activeTail_eq]
    split_ifs <;> simp [List.append_assoc]

lemma dynamicStep_fire_swipeLeft (t : ℚ) (hd : HandData) (s : State)
    (hf : hd.fingers = [1, 1, 1, 1, 1])
    (hdeb : cooldown_swipe_sec < t - s.lastAction)
    (hlen : 2 ≤ (dequePush5 s.trail (hd.indexTip.1, hd.indexTip.2, t)).length)
    (hdx : trailDx (dequePush5 s.trail (hd.indexTip.1, hd.indexTip.2, t)) ≤
      -swipe_threshold_px)
    (hdy : pyabs (trailDy (dequePush5 s.trail (hd.indexTip.1, hd.indexTip.2, t))) <
      swipe_threshold_px / 2) :
    dynamicStep t hd s =
      ({ s with
          trail := dequePush5 s.trail (hd.indexTip.1, hd.indexTip.2, t)
          lastAction := t },
        [Event.swipeLeft]) := by
  simp [dynamicStep, swipePart, scrollPart, hlen, hf, hdeb, hdx, hdy]
  norm_num

/-- C6: with all five fingers extended, a defined trail displacement
with `dx ≤ -120` and `|dy| < 60`, and the swipe cooldown allowing, the
frame classifies a SwipeLeft and never a SwipeRight, ScrollUp or
ScrollDown. -/
theorem C6_swipe_left (w hs : ℚ) (s : State) (t : ℚ) (hd : HandData)
    (hf : hd.fingers = [1, 1, 1, 1, 1])
    (hp : s.paused = false)
    (hdeb : cooldown_swipe_sec < t - s.lastAction)
    (hlen : 2 ≤ (dequePush5 s.trail (hd.indexTip.1, hd.indexTip.2, t)).length)
    (hdx : trailDx (dequePush5 s.trail (hd.indexTip.1, hd.indexTip.2, t)) ≤ -120)
    (hdy : pyabs (trailDy (dequePush5 s.trail
      (hd.indexTip.1, hd.indexTip.2, t))) < 60) :
    Event.swipeLeft ∈ (frameStep w hs s ⟨t, some hd⟩).2 ∧
    Event.swipeRight ∉ (frameStep w hs s ⟨t, some hd⟩).2 ∧
    Event.scrollUp ∉ (frameStep w hs s ⟨t, some hd⟩).2 ∧
    Event.scrollDown ∉ (frameStep w hs s ⟨t, some hd⟩).2 := by
  have hnf : hd.fingers ≠ [0, 0, 0, 0, 0] := by rw [hf]; decide
  rw [frameStep_active_nofist w hs s t hd hnf hp, activeTail_eq]
  set s1 : State := { s with restSince := none, paused := false } with hs1
  have hM : moveStep w hs hd s1 = (s1, []) := by
    simp [moveStep, hf]
  have hc3 : (clickStep t hd (moveStep w hs hd s1).1).1.lastAction =
      s.lastAction := by
    rw [(clickStep_spec t hd (moveStep w hs hd s1).1).2.2.1,
      (moveStep_spec w hs hd s1).2.1]
  have hr3 : (rightClickStep t hd (clickStep t hd
      (moveStep w hs hd s1).1).1).1.lastAction = s.lastAction := by
    rw [(rightClickStep_spec t hd (clickStep t hd
      (moveStep w hs hd s1).1).1).2.2.1, hc3]
  have htr : (rightClickStep t hd (clickStep t hd
      (moveStep w hs hd s1).1).1).1.trail = s.trail := by
    rw [(rightClickStep_spec t hd (clickStep t hd
      (moveStep w hs hd s1).1).1).2.2.2.2.2,
      (clickStep_spec t hd (moveStep w hs hd s1).1).2.2.2.2.2,
      (moveStep_spec w hs hd s1).2.2.2.2.1]
  have hD := dynamicStep_fire_swipeLeft t hd
    (rightClickStep t hd (clickStep t hd (moveStep w hs hd s1).1).1).1 hf
    (by rw [hr3]; exact hdeb)
    (by rw [htr]; exact hlen)
    (by rw [htr]; exact hdx)
    (by rw [htr]; exact hdy)
  refine ⟨?_, ?_, ?_, ?_⟩
  · simp only [List.mem_append]
    right
    rw [hD]
    simp
  all_goals
    intro hm
    simp only [List.mem_append] at hm
    rcases hm with ((hm | hm) | hm) | hm
  · rw [hM] at hm; simp at hm
  · rcases clickStep_cases t hd (moveStep w hs hd s1).1 with
      hcc | ⟨_, hcc | hcc⟩ <;> rw [hcc] at hm <;> simp at hm
  · rcases rightClickStep_cases t hd (clickStep t hd
        (moveStep w hs hd s1).1).1 with hrr | ⟨_, hrr⟩ <;>
      rw [hrr] at hm <;> simp at hm
  · rw [hD] at hm; simp at hm
  · rw [hM] at hm; simp at hm
  · rcases clickStep_cases t hd (moveStep w hs hd s1).1 with
      hcc | ⟨_, hcc | hcc⟩ <;> rw [hcc] at hm <;> simp at hm
  · rcases rightClickStep_cases t hd (clickStep t hd
        (moveStep w hs hd s1).1).1 with hrr | ⟨_, hrr⟩ <;>
      rw [hrr] at hm <;> simp at hm
  · rw [hD] at hm; simp at hm
  · rw [hM] at hm; simp at hm
  · rcases clickStep_cases t hd (moveStep w hs hd s1).1 with
      hcc | ⟨_, hcc | hcc⟩ <;> rw [hcc] at hm <;> simp at hm
  · rcases rightClickStep_cases t hd (clickStep t hd
        (moveStep w hs hd s1).1).1 with hrr | ⟨_, hrr⟩ <;>
      rw [hrr] at hm <;> simp at hm
  · rw [hD] at hm; simp at hm

/-- C6 (witness): open palm moving from `(300, 100)` to `(150, 110)`
(dx = -150, dy = 10) with the cooldown elapsed yields a SwipeLeft and
nothing else. -/
theorem C6_witness :
    Event.swipeLeft ∈ (frameStep 100 100
      { initState with trail := [(300, 100, 0)] } ⟨1, some palmHand⟩).2 ∧
    Event.swipeRight ∉ (frameStep 100 100
      { initState with trail := [(300, 100, 0)] } ⟨1, some palmHand⟩).2 ∧
    Event.scrollUp ∉ (frameStep 100 100
      { initState with trail := [(300, 100, 0)] } ⟨1, some palmHand⟩).2 ∧
    Event.scrollDown ∉ (frameStep 100 100
      { initState with trail := [(300, 100, 0)] } ⟨1, some palmHand⟩).2 :=
  C6_swipe_left 100 100 { initState with trail := [(300, 100, 0)] } 1
    palmHand rfl rfl (by norm_num [cooldown_swipe_sec, initState])
    (by decide) (by decide) (by decide)

lemma dynamicStep_short (t : ℚ) (hd : HandData) (sd : State)
    (hlen : ¬ 2 ≤ (dequePush5 sd.trail (hd.indexTip.1, hd.indexTip.2, t)).length) :
    dynamicStep t hd sd =
      ({ sd with trail := dequePush5 sd.trail (hd.indexTip.1, hd.indexTip.2, t) },
        []) := by
  simp [dynamicStep, hlen]

lemma foldl_dequePush5_drop (samples : List (ℤ × ℤ × ℚ)) :
    ∀ q : List (ℤ × ℤ × ℚ), q.length ≤ 5 →
    List.foldl dequePush5 q samples =
      (q ++ samples).drop ((q ++ samples).length - 5) := by
  induction samples with
  | nil =>
    intro q hq
    simp [Nat.sub_eq_zero_of_le hq]
  | cons a rest ih =>
    intro q hq
    simp only [List.foldl_cons]
    by_cases hlt : q.length < 5
    · rw [show dequePush5 q a = q ++ [a] from by simp [dequePush5, hlt]]
      rw [ih (q ++ [a]) (by simp; omega)]
      simp [List.append_assoc]
    · have h5 : q.length = 5 := le_antisymm hq (not_lt.mp hlt)
      rw [show dequePush5 q a = q.tail ++ [a] from by simp [dequePush5, hlt]]
      rw [ih (q.tail ++ [a]) (by simp [List.length_tail]; omega)]
      cases q with
      | nil => simp at h5
      | cons x q' =>
        have h4 : q'.length = 4 := by simpa using h5
        simp only [List.tail_cons, List.cons_append]
        have e1 : (q' ++ [a]) ++ rest = q' ++ a :: rest := by simp
        rw [e1]
        have l1 : (q' ++ a :: rest).length - 5 = rest.length := by
          simp [h4]
          omega
        have l2 : (x :: (q' ++ a :: rest)).length - 5 = rest.length + 1 := by
          simp [h4]
        rw [l1, l2, List.drop_succ_cons]

lemma trailD_head_last (a b : ℤ × ℤ × ℚ) (mid : List (ℤ × ℤ × ℚ)) :
    trailDx (a :: (mid ++ [b])) = b.1 - a.1 ∧
    trailDy (a :: (mid ++ [b])) = b.2.1 - a.2.1 := by
  unfold trailDx trailDy
  have h2 : (a :: (mid ++ [b])).getLastD (0, 0, 0) = b := by
    rw [show a :: (mid ++ [b]) = (a :: mid) ++ [b] from
      (List.cons_append a mid [b]).symm]
    exact List.getLastD_concat _ _ _
  rw [h2]
  exact ⟨rfl, rfl⟩

/-- C7: the trail buffer never exceeds 5 entries and evicts oldest
first — after any sequence of pushes it holds exactly the last (up to)
five samples; the displacement computed from a trail is newest minus
oldest retained; and a frame whose post-push trail has fewer than 2
samples triggers no swipe or scroll event. -/
theorem C7_trail_buffer :
    (∀ samples : List (ℤ × ℤ × ℚ),
      (List.foldl dequePush5 [] samples).length ≤ 5) ∧
    (∀ samples : List (ℤ × ℤ × ℚ),
      List.foldl dequePush5 [] samples =
        samples.drop (samples.length - 5)) ∧
    (∀ (a b : ℤ × ℤ × ℚ) (mid : List (ℤ × ℤ × ℚ)),
      trailDx (a :: (mid ++ [b])) = b.1 - a.1 ∧
      trailDy (a :: (mid ++ [b])) = b.2.1 - a.2.1) ∧
    (∀ (w hs : ℚ) (s : State) (t : ℚ) (hd : HandData),
      (dequePush5 s.trail (hd.indexTip.1, hd.indexTip.2, t)).length < 2 →
      Event.swipeLeft ∉ (frameStep w hs s ⟨t, some hd⟩).2 ∧
      Event.swipeRight ∉ (frameStep w hs s ⟨t, some hd⟩).2 ∧
      Event.scrollUp ∉ (frameStep w hs s ⟨t, some hd⟩).2 ∧
      Event.scrollDown ∉ (frameStep w hs s ⟨t, some hd⟩).2) := by
  have hdrop : ∀ samples : List (ℤ × ℤ × ℚ),
      List.foldl dequePush5 [] samples =
        samples.drop (samples.length - 5) := by
    intro samples
    have := foldl_dequePush5_drop samples [] (by simp)
    simpa using this
  refine ⟨?_, hdrop, trailD_head_last, ?_⟩
  · intro samples
    rw [hdrop samples]
    simp [List.length_drop]
    omega
  · intro w hs s t hd hlen
    refine ⟨?_, ?_, ?_, ?_⟩ <;>
    · intro hm
      rcases frameStep_shape w hs s t hd with ⟨rs, pz, hfs⟩ | ⟨rs, pz, hfs⟩
      · rw [hfs] at hm
        cases pz <;> simp at hm
      · rw [hfs] at hm
        simp only [List.mem_append] at hm
        rcases hm with hm | hm
        · cases pz <;> simp at hm
        · rw [activeTail_eq] at hm
          have htr : (rightClickStep t hd (clickStep t hd (moveStep w hs hd
              { s with restSince := rs, paused := false }).1).1).1.trail =
              s.trail := by
            rw [(rightClickStep_spec t hd (clickStep t hd (moveStep w hs hd
                { s with restSince := rs, paused := false }).1).1).2.2.2.2.2,
              (clickStep_spec t hd (moveStep w hs hd
                { s with restSince := rs, paused := false }).1).2.2.2.2.2,
              (moveStep_spec w hs hd
                { s with restSince := rs, paused := false }).2.2.2.2.1]
          have hD := dynamicStep_short t hd
            (rightClickStep t hd (clickStep t hd (moveStep w hs hd
              { s with restSince := rs, paused := false }).1).1).1
            (by rw [htr]; omega)
          simp only [List.mem_append] at hm
          rcases hm with ((hm2 | hm2) | hm2) | hm2
          · rcases (moveStep_spec w hs hd
                { s with restSince := rs, paused := false }).2.2.2.2.2 with
              hm3 | ⟨a, b, hm3⟩ <;> rw [hm3] at hm2 <;> simp at hm2
          · rcases clickStep_cases t hd (moveStep w hs hd
                { s with restSince := rs, paused := false }).1 with
              hc | ⟨_, hc | hc⟩ <;> rw [hc] at hm2 <;> simp at hm2
          · rcases rightClickStep_cases t hd (clickStep t hd (moveStep w hs hd
                { s with restSince := rs, paused := false }).1).1 with
              hr | ⟨_, hr⟩ <;> rw [hr] at hm2 <;> simp at hm2
          · rw [hD] at hm2
            simp at hm2

/-- C7 (witness): the very first frame from the initial state (trail
becomes a single sample) triggers no swipe or scroll. -/
theorem C7_witness :
    Event.swipeLeft ∉ (frameStep 100 100 initState ⟨0, some indexHand⟩).2 ∧
    Event.swipeRight ∉ (frameStep 100 100 initState ⟨0, some indexHand⟩).2 ∧
    Event.scrollUp ∉ (frameStep 100 100 initState ⟨0, some indexHand⟩).2 ∧
    Event.scrollDown ∉ (frameStep 100 100 initState ⟨0, some indexHand⟩).2 :=
  C7_trail_buffer.2.2.2 100 100 initState 0 indexHand (by decide)

/-- C9: the claim says the scenario starting from the initial state
(click timer 0.0) with a qualifying click frame at t=0 produces exactly
one LeftClick at t=0.  False: the debounce is strict
(`now - last_click_time > 0.12`) and the timer's initial value is 0.0,
so at t=0 the check is `0 > 0.12` and nothing fires; the identical
frame at t=0.05s is likewise silent — the scenario produces no event at
all. -/
theorem C9_counterexample :
    (run 1920 1080 initState
      [⟨0, some clickHand⟩, ⟨0.05, some clickHand⟩]).2 = [] := by
  norm_num [run, frameStep, activeTail, pauseUpdate, moveStep, clickStep,
    rightClickStep, dynamicStep, swipePart, scrollPart, dequePush5, trailDx,
    trailDy, distSq, initState, pymin, pymax, pyabs, interp, safe_move_mouse,
    click_debounce_sec, double_click_threshold, swipe_threshold_px,
    scroll_threshold_px, cooldown_swipe_sec, rest_toggle_hold_sec, wCam, hCam,
    frameR, smoothening, clickHand]

/-- C9 (amended): shifted past the 0.12s debounce window relative to the
0.0 timer sentinel, the scenario behaves as described: the frame with
finger vector [0,1,1,0,0] and tips 11.18px apart at t=1s produces
exactly one LeftClick, and the identical frame 0.05s later produces
nothing (0.12s not elapsed). -/
theorem C9_amended :
    (run 1920 1080 initState
      [⟨1, some clickHand⟩, ⟨1.05, some clickHand⟩]).2 =
      [Event.leftClick] := by
  norm_num [run, frameStep, activeTail, pauseUpdate, moveStep, clickStep,
    rightClickStep, dynamicStep, swipePart, scrollPart, dequePush5, trailDx,
    trailDy, distSq, initState, pymin, pymax, pyabs, interp, safe_move_mouse,
    click_debounce_sec, double_click_threshold, swipe_threshold_px,
    scroll_threshold_px, cooldown_swipe_sec, rest_toggle_hold_sec, wCam, hCam,
    frameR, smoothening, clickHand]
